import Mathlib

/-!
Verification of the AI-Diet-Fitness-Planner backend.

The definitions below are a shallow embedding of the Python sources
`src/backend/utils.py` and `src/backend/main.py`.  Python floats are
modelled as rationals (the claims are about the arithmetic formulas, not
about binary floating point), Python `round` (round half to even) is
modelled by `pyRound`, strings by Lean `String`, and the Gemini HTTP
upstream by an oracle assigning a response to every attempt index.
-/

namespace DietPlanner

/-- ASCII lowercasing of one character, as Python's `str.lower` acts on the
ASCII strings this program compares. -/
def pyCharLower (c : Char) : Char :=
  if 'A' ≤ c ∧ c ≤ 'Z' then Char.ofNat (c.toNat + 32) else c

/-- Python's `str.lower` (ASCII fragment), used for every case-insensitive
comparison in utils.py. -/
def pyLower (s : String) : String := ⟨s.data.map pyCharLower⟩

/-- Python's builtin `round` on a rational: nearest integer, ties to even. -/
def pyRound (q : ℚ) : ℤ :=
  let f : ℤ := ⌊q⌋
  let r : ℚ := q - f
  if r < 1/2 then f
  else if 1/2 < r then f + 1
  else if f % 2 = 0 then f else f + 1

/-- From utils.py, `compute_bmr`: the Mifflin–St Jeor formula. -/
def compute_bmr (sex : String) (weight height : ℚ) (age : ℤ) : ℚ :=
  if pyLower sex = "male" then
    10 * weight + 625/100 * height - 5 * age + 5
  else
    10 * weight + 625/100 * height - 5 * age - 161

/-- From utils.py, `activity_multiplier`: TDEE multiplier with default 1.2. -/
def activity_multiplier (level : String) : ℚ :=
  if pyLower level = "sedentary" then 12/10
  else if pyLower level = "light" then 1375/1000
  else if pyLower level = "moderate" then 155/100
  else if pyLower level = "active" then 1725/1000
  else if pyLower level = "very_active" then 19/10
  else 12/10

/-- From utils.py, `adjust_for_goal`. -/
def adjust_for_goal (tdee : ℚ) (goal : String) : ℚ :=
  if pyLower goal = "lose" then tdee - 500
  else if pyLower goal = "gain" then tdee + 300
  else tdee

/-- The dictionary returned by utils.py's `compute_macros`. -/
structure MacroTargets where
  protein_g : ℤ
  fat_g : ℤ
  carbs_g : ℤ
  deriving DecidableEq, Repr

/-- From utils.py, `compute_macros`: protein and fat split by goal, carbs
from the remaining calories, each value rounded independently. -/
def compute_macros (weight calories : ℚ) (goal : String) : MacroTargets :=
  let protein_g : ℚ := if pyLower goal = "lose" then weight * 18/10 else weight * 15/10
  let fat_g : ℚ := if pyLower goal = "lose" then (calories * 25/100) / 9 else (calories * 3/10) / 9
  let carbs_g : ℚ := (calories - (protein_g * 4 + fat_g * 9)) / 4
  ⟨pyRound protein_g, pyRound fat_g, pyRound carbs_g⟩

/-- Python's `\s` on ASCII text: the whitespace class used by both the
code's regex and `str.strip`. -/
def isPySpace (c : Char) : Bool :=
  c = ' ' || c = '\t' || c = '\n' || c = '\r' || c = '\x0b' || c = '\x0c'

/-- The ``` fence marker of utils.py's regex, as characters. -/
def fenceChars : List Char := ['`', '`', '`']

/-- The optional `json` tag after the opening fence. -/
def jsonChars : List Char := ['j', 's', 'o', 'n']

/-- Length matched by the regex branch `^```(?:json)?\s*` at the current
position (0 when it does not match); `lineStart` says whether the
MULTILINE `^` holds there. -/
def branch1Len (lineStart : Bool) (l : List Char) : Nat :=
  if lineStart && fenceChars.isPrefixOf l then
    let l3 := l.drop 3
    if jsonChars.isPrefixOf l3 then 7 + ((l3.drop 4).takeWhile isPySpace).length
    else 3 + (l3.takeWhile isPySpace).length
  else 0

/-- The MULTILINE `$`: end of string or just before a newline. -/
def atLineEnd (l : List Char) : Bool :=
  match l with
  | [] => true
  | c :: _ => c = '\n'

/-- Length matched by the regex branch `\s*```$` at the current position
(0 when it does not match).  The greedy `\s*` run is forced: a shorter run
would have to be followed by a backtick, which is not whitespace. -/
def branch2Len (l : List Char) : Nat :=
  let k := (l.takeWhile isPySpace).length
  let rest := l.drop k
  if fenceChars.isPrefixOf rest && atLineEnd (rest.drop 3) then k + 3 else 0

/-- Length matched at the current position by the alternation
`^```(?:json)?\s*|\s*```$` (Python tries the left branch first). -/
def fenceMatchLen (lineStart : Bool) (l : List Char) : Nat :=
  if branch1Len lineStart l ≠ 0 then branch1Len lineStart l else branch2Len l

/-- `re.sub(pattern, '', response, flags=re.MULTILINE)`: scan left to
right, delete each leftmost non-overlapping match, copy everything else.
The Bool flag carries whether the current position starts a line; the
fuel argument (any bound on the length) only forces structural
recursion — every step consumes at least one character. -/
def subScanF : Nat → Bool → List Char → List Char
  | _, _, [] => []
  | 0, _, _ => []
  | fuel + 1, ls, c :: cs =>
    let n := fenceMatchLen ls (c :: cs)
    if n = 0 then c :: subScanF fuel (c == '\n') cs
    else subScanF fuel ((c :: cs).get? (n - 1) == some '\n') ((c :: cs).drop n)

/-- The regex deletion pass over a whole text (fuel instantiated). -/
def subScan (ls : Bool) (l : List Char) : List Char := subScanF l.length ls l

/-- Leading-whitespace strip, as in Python's `str.strip`. -/
def lstripWs (l : List Char) : List Char := l.dropWhile isPySpace

/-- Trailing-whitespace strip, as in Python's `str.strip`. -/
def rstripWs (l : List Char) : List Char := (l.reverse.dropWhile isPySpace).reverse

/-- Python's `str.strip()` on ASCII text. -/
def stripWs (l : List Char) : List Char := lstripWs (rstripWs l)

/-- From utils.py, `clean_json_response`: delete every match of
`^```(?:json)?\s*|\s*```$` (MULTILINE), then strip surrounding
whitespace. -/
def clean_json_response (s : String) : String := ⟨stripWs (subScan true s.data)⟩

/-- One upstream answer to one HTTP attempt of `call_llm`: rate limited
(HTTP 429), another HTTP error, a JSON body without candidates, or a
success whose top-level `finishReason` may be `MAX_TOKENS`. -/
inductive LLMResp where
  | rateLimited
  | httpError
  | noCandidates
  | success (truncated : Bool) (text : String)

/-- What a run of `call_llm` did and produced. -/
inductive CallOutcome where
  | ok (text : String)
  | failed (msg : String)
  | exhausted
  deriving DecidableEq

/-- Observable trace of a `call_llm` run: attempts actually made, backoff
sleeps in seconds in order, the `maxOutputTokens` sent on each attempt,
and the outcome. -/
structure CallResult where
  attemptsMade : Nat
  sleeps : List Nat
  tokenCaps : List Nat
  outcome : CallOutcome
  deriving DecidableEq

/-- Message prefix of the ValueError raised when the API call fails. -/
def upstreamFailMsg : String := "LLM API call failed"

/-- The body of utils.py's `call_llm` loop `for attempt in range(retries)`;
`fuel` counts the attempts still allowed (the attempt index is
`retries - fuel`), `cur` is the `maxOutputTokens` currently in `data`. -/
def callLLMGo (resps : Nat → LLMResp) (retries max_tokens : Nat) (cur : Nat) :
    Nat → CallResult
  | 0 => ⟨0, [], [], .exhausted⟩
  | fuel + 1 =>
    let attempt := retries - fuel - 1
    match resps attempt with
    | .rateLimited =>
      if attempt < retries - 1 then
        let r := callLLMGo resps retries max_tokens cur fuel
        ⟨r.attemptsMade + 1, 2 ^ attempt :: r.sleeps, cur :: r.tokenCaps, r.outcome⟩
      else ⟨1, [], [cur], .failed upstreamFailMsg⟩
    | .httpError => ⟨1, [], [cur], .failed upstreamFailMsg⟩
    | .noCandidates => ⟨1, [], [cur], .failed "No candidates in Gemini API response"⟩
    | .success truncated text =>
      if truncated && decide (attempt < retries - 1) then
        let r := callLLMGo resps retries max_tokens (max_tokens + 1000) fuel
        ⟨r.attemptsMade + 1, r.sleeps, cur :: r.tokenCaps, r.outcome⟩
      else ⟨1, [], [cur], .ok (clean_json_response text)⟩

/-- From utils.py, `call_llm`, abstracted over the upstream oracle
`resps` (the response each attempt index would get). -/
def call_llm (resps : Nat → LLMResp) (retries : Nat := 3) (max_tokens : Nat := 2000) :
    CallResult :=
  callLLMGo resps retries max_tokens max_tokens retries

/-- Python's `needle in haystack` substring test. -/
def strContains (hay needle : String) : Bool :=
  (List.range (hay.data.length + 1)).any fun i => List.isPrefixOf needle.data (hay.data.drop i)

/-- From utils.py, `validate_diet_plan`: the non-vegetarian term list. -/
def non_veg_terms : List String :=
  ["chicken", "beef", "fish", "salmon", "tuna", "turkey", "steak", "meatballs"]

/-- From utils.py, `validate_diet_plan`: the nut term list. -/
def nut_terms : List String :=
  ["nut", "peanut", "almond", "cashew", "walnut", "hazelnut", "pecan", "pistachio"]

/-- Does a day's (lowercased) text contain a non-vegetarian term? -/
def dayNonVeg (meals : String) : Bool :=
  non_veg_terms.any fun t => strContains (pyLower meals) t

/-- Does a day's (lowercased) text contain a nut term? -/
def dayNut (meals : String) : Bool :=
  nut_terms.any fun t => strContains (pyLower meals) t

/-- The ValueError message for a vegetarian violation. -/
def nonVegMsg (day meals : String) : String :=
  "Non-vegetarian item found in " ++ day ++ " for vegetarian diet: " ++ meals

/-- The ValueError message for a no-nuts violation. -/
def nutMsg (day meals : String) : String :=
  "Nut-containing item found in " ++ day ++ " despite no-nuts restriction: " ++ meals

/-- The `for day, meals in plan.items()` loop of `validate_diet_plan`. -/
def validateLoop (isVeg noNuts : Bool) : List (String × String) → Except String Unit
  | [] => .ok ()
  | (day, meals) :: rest =>
    if isVeg && dayNonVeg meals then .error (nonVegMsg day meals)
    else if noNuts && dayNut meals then .error (nutMsg day meals)
    else validateLoop isVeg noNuts rest

/-- From utils.py, `validate_diet_plan` (a plan is the association list of
a Python dict, day ↦ meals text). -/
def validate_diet_plan (plan : List (String × String))
    (dietary_preferences restrictions : List String) : Except String Unit :=
  let is_vegetarian := (dietary_preferences.map pyLower).contains "vegetarian"
  let no_nuts := (restrictions.map pyLower).contains "no nuts"
  validateLoop is_vegetarian no_nuts plan

/-- Result of `json.loads` on the sanitized response, as far as the plan
checks inspect it: a string-to-string mapping or anything else. -/
inductive ParsedJson where
  | dict (m : List (String × String))
  | nonDict

/-- The seven canonical weekday keys checked by `generate_diet_plan` and
`generate_workout_plan`. -/
def weekly_days : List String :=
  ["Monday", "Tuesday", "Wednesday", "Thursday", "Friday", "Saturday", "Sunday"]

/-- Python's `day in parsed` key test on the dict model. -/
def hasKey (m : List (String × String)) (k : String) : Bool :=
  m.any fun kv => kv.1 == k

/-- The structure test `isinstance(parsed, dict) and all(day in parsed for
day in [...])` shared by both plan generators. -/
def plan_structure_ok : ParsedJson → Bool
  | .dict m => weekly_days.all (hasKey m)
  | .nonDict => false

/-- The ValueError message of `generate_diet_plan`'s schema check. -/
def invalidDietMsg : String := "Invalid diet plan structure"

/-- The ValueError message of `generate_workout_plan`'s schema check. -/
def invalidWorkoutMsg : String := "Invalid workout plan structure"

/-- The post-parse step of utils.py's `generate_diet_plan`: schema check,
then compliance validation, then the parsed plan is returned. -/
def generate_diet_plan_post (p : ParsedJson) (prefs restrs : List String) :
    Except String (List (String × String)) :=
  match p with
  | .nonDict => .error invalidDietMsg
  | .dict m =>
    if plan_structure_ok (.dict m) then
      match validate_diet_plan m prefs restrs with
      | .ok _ => .ok m
      | .error e => .error e
    else .error invalidDietMsg

/-- The post-parse step of utils.py's `generate_workout_plan`: schema
check only. -/
def generate_workout_plan_post (p : ParsedJson) :
    Except String (List (String × String)) :=
  match p with
  | .nonDict => .error invalidWorkoutMsg
  | .dict m =>
    if plan_structure_ok (.dict m) then .ok m else .error invalidWorkoutMsg

/-- A failure escaping the core pipeline into main.py's handler: a
ValueError-class error carrying its message, or any unexpected
exception. -/
inductive PipelineError where
  | valueError (msg : String)
  | unexpected (msg : String)
  deriving DecidableEq

/-- An HTTPException as raised by main.py: status code and detail. -/
structure HTTPFailure where
  status : Nat
  detail : String
  deriving DecidableEq

/-- The generic detail string of main.py's `except Exception` arm. -/
def internalErrorDetail : String := "Internal server error"

/-- The try/except mapping of main.py's `generate_plan`: ValueError-class
failures surface their own message with HTTP 500, anything else the
generic detail. -/
def generate_plan_handler {α : Type} (r : Except PipelineError α) : Except HTTPFailure α :=
  match r with
  | .ok a => .ok a
  | .error (.valueError m) => .error ⟨500, m⟩
  | .error (.unexpected _) => .error ⟨500, internalErrorDetail⟩

/-- Steps 1–4 of main.py's `generate_plan`: BMR, TDEE, goal-adjusted
calorie target, macros. -/
def metricsPipeline (sex : String) (w h : ℚ) (age : ℤ)
    (activity goal : String) : MacroTargets :=
  let bmr := compute_bmr sex w h age
  let tdee := bmr * activity_multiplier activity
  let calorie_target := adjust_for_goal tdee goal
  compute_macros w calorie_target goal

/-- The goal-adjusted calorie target computed by steps 1–3 of
`generate_plan`. -/
def calorieTarget (sex : String) (w h : ℚ) (age : ℤ)
    (activity goal : String) : ℚ :=
  adjust_for_goal (compute_bmr sex w h age * activity_multiplier activity) goal

/-- The characters of the wrap suffix "\n```". -/
def nl3 : List Char := '\n' :: fenceChars

/-- The characters of the wrap prefix "```json\n". -/
def preJsonChars : List Char := ("```json\n" : String).data

/-- The characters of the plain wrap prefix "```\n". -/
def prePlainChars : List Char := ("```\n" : String).data

/-- Line-start flag right after scanning past the whitespace prefix of
`v`, starting from flag `f`: unchanged when there is no whitespace,
otherwise set by the last whitespace character. -/
def wsFlagF (v : List Char) (f : Bool) : Bool :=
  match (v.takeWhile isPySpace).getLast? with
  | none => f
  | some ch => ch == '\n'

/-- Line-start flag after copying or consuming the characters of `w`,
starting from flag `f`. -/
def flagAfter (w : List Char) (f : Bool) : Bool :=
  match w.getLast? with
  | none => f
  | some ch => ch == '\n'

-- ===== end of definitions =====


lemma pyRound_congr {a b : ℚ} (h : a = b) : pyRound a = pyRound b := by rw [h]

/-- C1: for positive weight `w`, calories `c` and any goal string,
`compute_macros` returns protein `1.8·w` and fat `(0.25·c)/9` when the
lowercased goal is `"lose"`, and protein `1.5·w`, fat `(0.3·c)/9`
otherwise; carbs are `(c − (protein·4 + fat·9))/4` computed from the
unrounded protein and fat, and each of the three values is rounded to the
nearest integer independently — so the rounded macros need not add back up
to `c` (witnessed at `(70, 2001, "lose")`, where the macro calories sum
to 2004). -/
theorem claim_C1_compute_macros (w c : ℚ) (goal : String) (_hw : 0 < w) (_hc : 0 < c) :
    (pyLower goal = "lose" →
      compute_macros w c goal =
        ⟨pyRound ((18/10) * w), pyRound ((25/100 * c) / 9),
         pyRound ((c - ((18/10) * w * 4 + ((25/100 * c) / 9) * 9)) / 4)⟩) ∧
    (pyLower goal ≠ "lose" →
      compute_macros w c goal =
        ⟨pyRound ((15/10) * w), pyRound ((3/10 * c) / 9),
         pyRound ((c - ((15/10) * w * 4 + ((3/10 * c) / 9) * 9)) / 4)⟩) ∧
    4 * (compute_macros 70 2001 "lose").protein_g
      + 9 * (compute_macros 70 2001 "lose").fat_g
      + 4 * (compute_macros 70 2001 "lose").carbs_g ≠ 2001 := by
  refine ⟨?_, ?_, ?_⟩
  · intro h
    simp only [compute_macros, h, eq_self_iff_true, if_true, MacroTargets.mk.injEq]
    exact ⟨pyRound_congr (by ring), pyRound_congr (by ring), pyRound_congr (by ring)⟩
  · intro h
    simp only [compute_macros, if_neg h, MacroTargets.mk.injEq]
    exact ⟨pyRound_congr (by ring), pyRound_congr (by ring), pyRound_congr (by ring)⟩
  · have h : compute_macros 70 2001 "lose" = ⟨126, 56, 249⟩ := by
      simp only [compute_macros, show pyLower "lose" = "lose" from by decide, if_pos rfl]
      norm_num [pyRound, Int.floor_eq_iff]
    rw [h]
    norm_num

/-- C1 witness: the theorem applied at `(70, 2000, "lose")` yields the
spec's worked example `protein = 126, fat = 56, carbs = 249`. -/
theorem claim_C1_witness : compute_macros 70 2000 "lose" = ⟨126, 56, 249⟩ := by
  have h := (claim_C1_compute_macros 70 2000 "lose" (by norm_num) (by norm_num)).1
    (by decide)
  rw [h]
  norm_num [pyRound, Int.floor_eq_iff]

/-- C2 counterexample: the claim's worked example is wrong — for a male of
70 kg, 175 cm, age 30 the Mifflin–St Jeor value computed by `compute_bmr`
is 1648.75 (= 6595/4), not 1673.75 (= 6695/4). -/
theorem claim_C2_cex :
    compute_bmr "male" 70 175 30 = 6595/4 ∧ compute_bmr "male" 70 175 30 ≠ 6695/4 := by
  have h : compute_bmr "male" 70 175 30 = 6595/4 := by
    simp only [compute_bmr, show pyLower "male" = "male" from by decide, if_pos rfl]
    norm_num
  exact ⟨h, by rw [h]; norm_num⟩

/-- C2 (amended): `compute_bmr` returns `10·w + 6.25·h − 5·a + 5` when the
lowercased sex is `"male"` and `10·w + 6.25·h − 5·a − 161` for every other
sex string; it is a pure total function, and the example input (male,
70 kg, 175 cm, age 30) gives exactly 1648.75. -/
theorem claim_C2_compute_bmr (sex : String) (w h : ℚ) (a : ℤ) :
    (pyLower sex = "male" → compute_bmr sex w h a = 10 * w + 625/100 * h - 5 * a + 5) ∧
    (pyLower sex ≠ "male" → compute_bmr sex w h a = 10 * w + 625/100 * h - 5 * a - 161) ∧
    compute_bmr "male" 70 175 30 = 6595/4 := by
  refine ⟨fun hm => ?_, fun hm => ?_, ?_⟩
  · simp only [compute_bmr, hm, eq_self_iff_true, if_true]
  · simp only [compute_bmr, if_neg hm]
  · simp only [compute_bmr, show pyLower "male" = "male" from by decide, if_pos rfl]
    norm_num

/-- C2 witness: the theorem applied at the male and female example inputs. -/
theorem claim_C2_witness :
    compute_bmr "male" 70 175 30 = 6595/4 ∧ compute_bmr "Female" 60 165 25 = 10 * 60 + 625/100 * 165 - 5 * 25 - 161 := by
  refine ⟨(claim_C2_compute_bmr "male" 70 175 30).2.2, ?_⟩
  exact (claim_C2_compute_bmr "Female" 60 165 25).2.1 (by decide)


lemma validateLoop_error_iff (v n : Bool) (plan : List (String × String)) :
    (∃ e, validateLoop v n plan = Except.error e) ↔
      (v = true ∧ plan.any (fun kv => dayNonVeg kv.2) = true) ∨
      (n = true ∧ plan.any (fun kv => dayNut kv.2) = true) := by
  induction plan with
  | nil => simp [validateLoop]
  | cons kv rest ih =>
    obtain ⟨day, meals⟩ := kv
    simp only [validateLoop, List.any_cons]
    by_cases h1 : v && dayNonVeg meals
    · rw [if_pos h1]
      rw [Bool.and_eq_true] at h1
      constructor
      · intro _
        exact Or.inl ⟨h1.1, by simp [h1.2]⟩
      · intro _
        exact ⟨_, rfl⟩
    · rw [if_neg h1]
      by_cases h2 : n && dayNut meals
      · rw [if_pos h2]
        rw [Bool.and_eq_true] at h2
        constructor
        · intro _
          exact Or.inr ⟨h2.1, by simp [h2.2]⟩
        · intro _
          exact ⟨_, rfl⟩
      · rw [if_neg h2, ih]
        have h1' : ¬(v = true ∧ dayNonVeg meals = true) := by
          simpa [Bool.and_eq_true] using h1
        have h2' : ¬(n = true ∧ dayNut meals = true) := by
          simpa [Bool.and_eq_true] using h2
        simp only [Bool.or_eq_true]
        constructor
        · rintro (⟨hv, hr⟩ | ⟨hn, hr⟩)
          · exact Or.inl ⟨hv, Or.inr hr⟩
          · exact Or.inr ⟨hn, Or.inr hr⟩
        · rintro (⟨hv, hd | hr⟩ | ⟨hn, hd | hr⟩)
          · exact absurd ⟨hv, hd⟩ h1'
          · exact Or.inl ⟨hv, hr⟩
          · exact absurd ⟨hn, hd⟩ h2'
          · exact Or.inr ⟨hn, hr⟩

lemma validateLoop_error_mem (v n : Bool) (plan : List (String × String)) (e : String)
    (h : validateLoop v n plan = Except.error e) :
    ∃ kv ∈ plan, (dayNonVeg kv.2 = true ∧ e = nonVegMsg kv.1 kv.2) ∨
                 (dayNut kv.2 = true ∧ e = nutMsg kv.1 kv.2) := by
  induction plan with
  | nil => simp [validateLoop] at h
  | cons kv rest ih =>
    obtain ⟨day, meals⟩ := kv
    simp only [validateLoop] at h
    by_cases h1 : v && dayNonVeg meals
    · rw [if_pos h1] at h
      rw [Bool.and_eq_true] at h1
      refine ⟨(day, meals), List.mem_cons_self _ _, Or.inl ⟨h1.2, ?_⟩⟩
      exact (Except.error.injEq _ _ ▸ h).symm
    · rw [if_neg h1] at h
      by_cases h2 : n && dayNut meals
      · rw [if_pos h2] at h
        rw [Bool.and_eq_true] at h2
        refine ⟨(day, meals), List.mem_cons_self _ _, Or.inr ⟨h2.2, ?_⟩⟩
        exact (Except.error.injEq _ _ ▸ h).symm
      · rw [if_neg h2] at h
        obtain ⟨kv, hmem, hkv⟩ := ih h
        exact ⟨kv, List.mem_cons_of_mem _ hmem, hkv⟩

lemma validateLoop_false_false (plan : List (String × String)) :
    validateLoop false false plan = Except.ok () := by
  induction plan with
  | nil => rfl
  | cons kv rest ih =>
    obtain ⟨day, meals⟩ := kv
    simp [validateLoop, ih]

/-- C6: `validate_diet_plan` fails exactly when "vegetarian" is among the
lowercased preferences and some day's lowercased text contains a
non-vegetarian term, or "no nuts" is among the lowercased restrictions and
some day's lowercased text contains a nut term (raw case-insensitive
substring matching); the raised message names the offending day and its
text.  The concrete conjunct shows the matching is plain substring search,
not word-boundary: "Coconut smoothie" trips the "nut" term. -/
theorem claim_C6_validate_diet_plan (plan : List (String × String))
    (prefs restrs : List String) :
    ((∃ e, validate_diet_plan plan prefs restrs = Except.error e) ↔
      ((prefs.map pyLower).contains "vegetarian" = true ∧
        plan.any (fun kv => dayNonVeg kv.2) = true) ∨
      ((restrs.map pyLower).contains "no nuts" = true ∧
        plan.any (fun kv => dayNut kv.2) = true)) ∧
    (∀ e, validate_diet_plan plan prefs restrs = Except.error e →
      ∃ kv ∈ plan, (dayNonVeg kv.2 = true ∧ e = nonVegMsg kv.1 kv.2) ∨
                   (dayNut kv.2 = true ∧ e = nutMsg kv.1 kv.2)) ∧
    validate_diet_plan [("Monday", "Coconut smoothie")] [] ["No Nuts"]
      = Except.error (nutMsg "Monday" "Coconut smoothie") := by
  refine ⟨validateLoop_error_iff _ _ plan, fun e he => validateLoop_error_mem _ _ plan e he, ?_⟩
  rfl

/-- C6 witness: a vegetarian plan containing "chicken" is rejected, and a
clean plan passes. -/
theorem claim_C6_witness :
    (∃ e, validate_diet_plan [("Monday", "Grilled Chicken salad")] ["Vegetarian"] []
      = Except.error e) ∧
    ¬ (∃ e, validate_diet_plan [("Monday", "Lentil soup")] ["Vegetarian"] []
      = Except.error e) := by
  constructor
  · exact (claim_C6_validate_diet_plan
      [("Monday", "Grilled Chicken salad")] ["Vegetarian"] []).1.mpr
      (Or.inl (by decide))
  · intro hex
    have := (claim_C6_validate_diet_plan [("Monday", "Lentil soup")] ["Vegetarian"] []).1.mp hex
    revert this
    decide

/-- C10: when "vegetarian" is not among the lowercased preferences and
"no nuts" is not among the lowercased restrictions — in particular when
both lists are empty — `validate_diet_plan` returns without raising, no
matter what the plan's day texts contain. -/
theorem claim_C10_validate_diet_plan_passes (plan : List (String × String))
    (prefs restrs : List String)
    (hv : (prefs.map pyLower).contains "vegetarian" = false)
    (hn : (restrs.map pyLower).contains "no nuts" = false) :
    validate_diet_plan plan prefs restrs = Except.ok () := by
  simp only [validate_diet_plan, hv, hn]
  exact validateLoop_false_false plan

/-- C10 witness: an empty preference and restriction list lets even a
chicken-and-peanut plan through. -/
theorem claim_C10_witness :
    validate_diet_plan [("Monday", "chicken with peanut sauce")] [] [] = Except.ok () :=
  claim_C10_validate_diet_plan_passes _ [] [] (by decide) (by decide)


/-- C5 counterexample: the schema check of `generate_diet_plan` (and
`generate_workout_plan`) does not reject extra keys — a parsed mapping
holding all seven weekday keys plus the non-weekday key "Someday" is
accepted and returned as is, against the claim that exactly the seven
canonical keys are accepted. -/
theorem claim_C5_cex :
    generate_diet_plan_post
      (ParsedJson.dict [("Monday", "a"), ("Tuesday", "b"), ("Wednesday", "c"),
        ("Thursday", "d"), ("Friday", "e"), ("Saturday", "f"), ("Sunday", "g"),
        ("Someday", "h")]) [] []
      = Except.ok [("Monday", "a"), ("Tuesday", "b"), ("Wednesday", "c"),
        ("Thursday", "d"), ("Friday", "e"), ("Saturday", "f"), ("Sunday", "g"),
        ("Someday", "h")] ∧
    ¬ ("Someday" ∈ weekly_days) := by
  constructor
  · rfl
  · decide

/-- C5 (amended): the parse step accepts a result exactly when it is a
mapping containing all seven weekday keys (extra keys are tolerated) and —
for the diet plan — the compliance validation passes; a non-mapping result
or one missing a weekday key fails with the ValueError "Invalid … plan
structure". -/
theorem claim_C5_weekly_plan_schema (p : ParsedJson) (prefs restrs : List String) :
    ((∃ m, generate_diet_plan_post p prefs restrs = Except.ok m) ↔
      (∃ m, p = ParsedJson.dict m ∧ weekly_days.all (hasKey m) = true ∧
        validate_diet_plan m prefs restrs = Except.ok ())) ∧
    (plan_structure_ok p = false →
      generate_diet_plan_post p prefs restrs = Except.error invalidDietMsg ∧
      generate_workout_plan_post p = Except.error invalidWorkoutMsg) ∧
    ((∃ m, generate_workout_plan_post p = Except.ok m) ↔
      (∃ m, p = ParsedJson.dict m ∧ weekly_days.all (hasKey m) = true)) := by
  refine ⟨?_, ?_, ?_⟩
  · cases p with
    | nonDict => simp [generate_diet_plan_post]
    | dict m =>
      simp only [generate_diet_plan_post, plan_structure_ok]
      by_cases hall : weekly_days.all (hasKey m) = true
      · rw [if_pos hall]
        cases hv : validate_diet_plan m prefs restrs with
        | ok u =>
          cases u
          simp only [ParsedJson.dict.injEq]
          constructor
          · rintro ⟨m', _⟩
            exact ⟨m, rfl, hall, hv⟩
          · rintro ⟨m', rfl, _, _⟩
            exact ⟨m, rfl⟩
        | error e =>
          simp only [ParsedJson.dict.injEq]
          constructor
          · rintro ⟨m', hm'⟩
            exact absurd hm' (by simp)
          · rintro ⟨m', rfl, _, hok⟩
            rw [hv] at hok
            exact absurd hok (by simp)
      · rw [if_neg hall]
        simp only [ParsedJson.dict.injEq]
        constructor
        · rintro ⟨m', hm'⟩
          exact absurd hm' (by simp)
        · rintro ⟨m', rfl, hall', _⟩
          exact absurd hall' hall
  · intro hbad
    cases p with
    | nonDict => exact ⟨rfl, rfl⟩
    | dict m =>
      refine ⟨?_, ?_⟩
      · simp only [generate_diet_plan_post, plan_structure_ok] at hbad ⊢
        rw [if_neg (by simp [hbad])]
      · simp only [generate_workout_plan_post, plan_structure_ok] at hbad ⊢
        rw [if_neg (by simp [hbad])]
  · cases p with
    | nonDict => simp [generate_workout_plan_post]
    | dict m =>
      simp only [generate_workout_plan_post, plan_structure_ok]
      by_cases hall : weekly_days.all (hasKey m) = true
      · rw [if_pos hall]
        simp only [ParsedJson.dict.injEq]
        constructor
        · rintro ⟨m', _⟩
          exact ⟨m, rfl, hall⟩
        · rintro ⟨m', rfl, _⟩
          exact ⟨m, rfl⟩
      · rw [if_neg hall]
        simp only [ParsedJson.dict.injEq]
        constructor
        · rintro ⟨m', hm'⟩
          exact absurd hm' (by simp)
        · rintro ⟨m', rfl, hall'⟩
          exact absurd hall' hall

/-- C5 witness: a well-formed seven-day mapping is accepted by both parse
steps, and a mapping missing "Sunday" is rejected with the schema
ValueError. -/
theorem claim_C5_witness :
    (∃ m, generate_diet_plan_post
      (ParsedJson.dict [("Monday", "a"), ("Tuesday", "b"), ("Wednesday", "c"),
        ("Thursday", "d"), ("Friday", "e"), ("Saturday", "f"), ("Sunday", "g")]) [] []
      = Except.ok m) ∧
    generate_diet_plan_post
      (ParsedJson.dict [("Monday", "a"), ("Tuesday", "b"), ("Wednesday", "c"),
        ("Thursday", "d"), ("Friday", "e"), ("Saturday", "f")]) [] []
      = Except.error invalidDietMsg := by
  constructor
  · exact (claim_C5_weekly_plan_schema
      (ParsedJson.dict [("Monday", "a"), ("Tuesday", "b"), ("Wednesday", "c"),
        ("Thursday", "d"), ("Friday", "e"), ("Saturday", "f"), ("Sunday", "g")]) [] []).1.mpr
      ⟨_, rfl, by decide, by rfl⟩
  · exact ((claim_C5_weekly_plan_schema
      (ParsedJson.dict [("Monday", "a"), ("Tuesday", "b"), ("Wednesday", "c"),
        ("Thursday", "d"), ("Friday", "e"), ("Saturday", "f")]) [] []).2.1 (by decide)).1


/-- C9 counterexample: the generic detail returned for an unanticipated
exception is the capitalized literal "Internal server error", not the
claimed lowercase "internal server error". -/
theorem claim_C9_cex :
    generate_plan_handler (α := Unit) (Except.error (PipelineError.unexpected "boom"))
      = Except.error ⟨500, "Internal server error"⟩ ∧
    internalErrorDetail ≠ "internal server error" := by
  constructor
  · rfl
  · decide

/-- C9 (amended): every ValueError-class failure of the core pipeline is
returned as HTTP 500 whose detail is exactly that error's message text;
every other unanticipated exception is returned as HTTP 500 with the fixed
generic "Internal server error" string; successes pass through. -/
theorem claim_C9_generate_plan_handler {α : Type} (r : Except PipelineError α) :
    (∀ m, r = Except.error (PipelineError.valueError m) →
      generate_plan_handler r = Except.error ⟨500, m⟩) ∧
    (∀ m, r = Except.error (PipelineError.unexpected m) →
      generate_plan_handler r = Except.error ⟨500, internalErrorDetail⟩) ∧
    (∀ a, r = Except.ok a → generate_plan_handler r = Except.ok a) := by
  refine ⟨fun m hm => ?_, fun m hm => ?_, fun a ha => ?_⟩
  · rw [hm]; rfl
  · rw [hm]; rfl
  · rw [ha]; rfl

/-- C9 witness: the theorem applied to a SchemaError-style ValueError and
to an unexpected failure. -/
theorem claim_C9_witness :
    generate_plan_handler (α := Unit)
      (Except.error (PipelineError.valueError "Invalid diet plan structure"))
      = Except.error ⟨500, "Invalid diet plan structure"⟩ ∧
    generate_plan_handler (α := Unit) (Except.error (PipelineError.unexpected "oops"))
      = Except.error ⟨500, internalErrorDetail⟩ := by
  constructor
  · exact (claim_C9_generate_plan_handler
      (Except.error (PipelineError.valueError "Invalid diet plan structure"))).1 _ rfl
  · exact (claim_C9_generate_plan_handler
      (Except.error (PipelineError.unexpected "oops"))).2.1 _ rfl

/-- C3 counterexample: with every attempt rate limited and the default
`retries = 3`, the loop makes three attempts but sleeps only twice — 1s
after attempt 0 and 2s after attempt 1; the claimed backoff schedule
1s, 2s, 4s never happens because no sleep follows the final attempt. -/
theorem claim_C3_cex :
    (call_llm (fun _ => LLMResp.rateLimited) 3 2000).sleeps = [1, 2] ∧
    (call_llm (fun _ => LLMResp.rateLimited) 3 2000).sleeps ≠ [1, 2, 4] := by
  constructor
  · rfl
  · decide

lemma callLLMGo_rateLimited (mt cur : Nat) :
    ∀ fuel retries, 1 ≤ fuel → fuel ≤ retries →
      callLLMGo (fun _ => LLMResp.rateLimited) retries mt cur fuel =
        ⟨fuel, (List.range' (retries - fuel) (fuel - 1)).map (2 ^ ·),
          List.replicate fuel cur, CallOutcome.failed upstreamFailMsg⟩ := by
  intro fuel
  induction fuel with
  | zero => omega
  | succ f ih =>
    intro retries _ hle
    simp only [callLLMGo]
    rcases Nat.eq_zero_or_pos f with hf | hf
    · subst hf
      rw [if_neg (by omega)]
      rfl
    · rw [if_pos (by omega)]
      rw [ih retries hf (by omega)]
      have h2 : f + 1 - 1 = (f - 1) + 1 := by omega
      have h3 : retries - (f + 1) + 1 = retries - f := by omega
      have h4 : retries - (f + 1) = retries - f - 1 := by omega
      conv_rhs => rw [h2, List.range'_succ, h3, h4, List.replicate_succ]
      simp

/-- C3 (amended): when every attempt is answered with HTTP 429, `call_llm`
makes exactly `retries` attempts (the first call plus `retries − 1`
retries) and then fails with the ValueError, sleeping `2^attempt` seconds
after every failed attempt except the last — delays 1s, 2s for the
default `retries = 3`. -/
theorem claim_C3_call_llm (retries mt : Nat) (h : 1 ≤ retries) :
    call_llm (fun _ => LLMResp.rateLimited) retries mt =
      ⟨retries, (List.range (retries - 1)).map (2 ^ ·), List.replicate retries mt,
        CallOutcome.failed upstreamFailMsg⟩ ∧
    (call_llm (fun _ => LLMResp.rateLimited) 3 2000).sleeps = [1, 2] := by
  constructor
  · rw [call_llm, callLLMGo_rateLimited mt mt retries retries h le_rfl]
    rw [Nat.sub_self, List.range_eq_range']
  · rfl

/-- C3 witness: the theorem applied at the default `retries = 3`. -/
theorem claim_C3_witness :
    call_llm (fun _ => LLMResp.rateLimited) 3 2000 =
      ⟨3, [1, 2], [2000, 2000, 2000], CallOutcome.failed upstreamFailMsg⟩ :=
  ((claim_C3_call_llm 3 2000 (by decide)).1).trans (by decide)

/-- C4 counterexample: truncation retries and HTTP 429 retries share the
same `retries` budget.  With `retries = 3`, two truncated successes
followed by a first-ever HTTP 429 exhaust the loop: the 429 is not
retried at all (no backoff sleep happens, the call fails) even though, on
a separate rate-limit axis, its full budget would have been unused —
whereas the contrast conjunct shows a 429 hit while budget remains does
get a backoff sleep. -/
theorem claim_C4_cex :
    call_llm (fun n => if n ≤ 1 then LLMResp.success true "x" else LLMResp.rateLimited) 3 2000
      = ⟨3, [], [2000, 3000, 3000], CallOutcome.failed upstreamFailMsg⟩ ∧
    (call_llm (fun _ => LLMResp.rateLimited) 3 2000).sleeps ≠ [] := by
  constructor
  · rfl
  · decide

/-- C4 (amended): when a successful response is flagged as truncated by
the token cap and attempts remain, `call_llm` retries the same call with
`maxOutputTokens` set to `max_tokens + 1000` (a single fixed increase —
a second truncation retry sends `max_tokens + 1000` again, not
`max_tokens + 2000`); the truncation retry consumes an attempt from the
same shared `retries` loop budget as the HTTP 429 backoff — the two retry
axes are not counted separately. -/
theorem claim_C4_call_llm (mt : Nat) (t u : String) :
    call_llm (fun n => if n = 0 then LLMResp.success true t else LLMResp.success false u) 3 mt
      = ⟨2, [], [mt, mt + 1000], CallOutcome.ok (clean_json_response u)⟩ ∧
    call_llm (fun n => if n ≤ 1 then LLMResp.success true t else LLMResp.success false u) 3 mt
      = ⟨3, [], [mt, mt + 1000, mt + 1000], CallOutcome.ok (clean_json_response u)⟩ ∧
    call_llm (fun n => if n ≤ 1 then LLMResp.success true t else LLMResp.rateLimited) 3 mt
      = ⟨3, [], [mt, mt + 1000, mt + 1000], CallOutcome.failed upstreamFailMsg⟩ := by
  refine ⟨rfl, rfl, rfl⟩


lemma pyRound_nonneg {q : ℚ} (h : 0 ≤ q) : 0 ≤ pyRound q := by
  have h0 : (0 : ℤ) ≤ ⌊q⌋ := by
    rw [Int.le_floor]
    exact_mod_cast h
  unfold pyRound
  dsimp only
  split
  · exact h0
  · split
    · omega
    · split <;> omega

lemma compute_macros_nonneg (w c : ℚ) (goal : String) (hw : 0 < w) :
    0 ≤ (compute_macros w c goal).protein_g ∧
    (0 ≤ c → 0 ≤ (compute_macros w c goal).fat_g) ∧
    ((if pyLower goal = "lose" then w * 18/10 else w * 15/10) * 4 +
     (if pyLower goal = "lose" then (c * 25/100) / 9 else (c * 3/10) / 9) * 9 ≤ c →
      0 ≤ (compute_macros w c goal).carbs_g) := by
  refine ⟨?_, fun hc => ?_, fun hsum => ?_⟩
  · apply pyRound_nonneg
    split <;> positivity
  · apply pyRound_nonneg
    split <;> positivity
  · apply pyRound_nonneg
    by_cases hg : pyLower goal = "lose" <;>
      simp only [compute_macros, hg, eq_self_iff_true, if_true, if_false,
        reduceIte] <;>
      simp only [hg, eq_self_iff_true, if_true, if_false, reduceIte] at hsum <;>
      linarith

lemma activity_multiplier_sedentary : activity_multiplier "sedentary" = 12/10 := by
  unfold activity_multiplier
  rw [if_pos (by decide)]

lemma activity_multiplier_moderate : activity_multiplier "moderate" = 155/100 := by
  unfold activity_multiplier
  rw [if_neg (by decide), if_neg (by decide), if_pos (by decide)]

lemma adjust_for_goal_lose (t : ℚ) : adjust_for_goal t "lose" = t - 500 := by
  unfold adjust_for_goal
  rw [if_pos (by decide)]

lemma adjust_for_goal_maintain (t : ℚ) : adjust_for_goal t "maintain" = t := by
  unfold adjust_for_goal
  rw [if_neg (by decide), if_neg (by decide)]

lemma compute_bmr_male_1_1_500 : compute_bmr "male" 1 1 500 = -9915/4 := by
  unfold compute_bmr
  rw [if_pos (by decide)]
  norm_num

lemma calorieTarget_cex : calorieTarget "male" 1 1 500 "sedentary" "lose" = -6949/2 := by
  unfold calorieTarget
  rw [compute_bmr_male_1_1_500, activity_multiplier_sedentary, adjust_for_goal_lose]
  norm_num

/-- C8 counterexample: the request boundary accepts age 500, height 1 cm,
weight 1 kg, goal "lose" (all positive, goal valid), yet the metrics
pipeline then produces negative fat and carb targets, violating the
claimed non-negativity of MacroTargets. -/
theorem claim_C8_cex :
    (metricsPipeline "male" 1 1 500 "sedentary" "lose").fat_g < 0 ∧
    (metricsPipeline "male" 1 1 500 "sedentary" "lose").carbs_g < 0 ∧
    (0 : ℤ) < 500 ∧ (0 : ℚ) < 1 ∧ "lose" ∈ ["lose", "maintain", "gain"] := by
  have hm : metricsPipeline "male" 1 1 500 "sedentary" "lose"
      = compute_macros 1 (-6949/2) "lose" := by
    rw [show metricsPipeline "male" 1 1 500 "sedentary" "lose"
        = compute_macros 1 (calorieTarget "male" 1 1 500 "sedentary" "lose") "lose" from rfl,
      calorieTarget_cex]
  have hmac : compute_macros 1 (-6949/2) "lose" = ⟨2, -97, -653⟩ := by
    unfold compute_macros
    rw [if_pos (by decide), if_pos (by decide)]
    norm_num [pyRound, Int.floor_eq_iff]
  rw [hm, hmac]
  refine ⟨by norm_num, by norm_num, by norm_num, by norm_num, by decide⟩

/-- C8 (amended): for accepted inputs the protein target is always
non-negative, the fat target is non-negative whenever the goal-adjusted
calorie target is, and the carb target is non-negative whenever the
calorie target at least covers the protein and fat calories; without
those provisos fat and carbs can be negative for accepted inputs, so the
unconditional claim fails. -/
theorem claim_C8_macros_nonneg (sex activity goal : String) (w h : ℚ) (a : ℤ)
    (hw : 0 < w) :
    0 ≤ (metricsPipeline sex w h a activity goal).protein_g ∧
    (0 ≤ calorieTarget sex w h a activity goal →
      0 ≤ (metricsPipeline sex w h a activity goal).fat_g) ∧
    ((if pyLower goal = "lose" then w * 18/10 else w * 15/10) * 4 +
     (if pyLower goal = "lose" then (calorieTarget sex w h a activity goal * 25/100) / 9
      else (calorieTarget sex w h a activity goal * 3/10) / 9) * 9
        ≤ calorieTarget sex w h a activity goal →
      0 ≤ (metricsPipeline sex w h a activity goal).carbs_g) := by
  have hrw : metricsPipeline sex w h a activity goal
      = compute_macros w (calorieTarget sex w h a activity goal) goal := rfl
  rw [hrw]
  exact compute_macros_nonneg w _ goal hw

lemma compute_bmr_male_example : compute_bmr "male" 70 175 30 = 6595/4 := by
  unfold compute_bmr
  rw [if_pos (by decide)]
  norm_num

lemma calorieTarget_witness_value :
    calorieTarget "male" 70 175 30 "moderate" "maintain" = 40889/16 := by
  unfold calorieTarget
  rw [compute_bmr_male_example, activity_multiplier_moderate, adjust_for_goal_maintain]
  norm_num

/-- C8 witness: a realistic input (male, 70 kg, 175 cm, 30, moderate,
maintain) satisfies all three provisos, so all three macro targets are
non-negative. -/
theorem claim_C8_witness :
    0 ≤ (metricsPipeline "male" 70 175 30 "moderate" "maintain").protein_g ∧
    0 ≤ (metricsPipeline "male" 70 175 30 "moderate" "maintain").fat_g ∧
    0 ≤ (metricsPipeline "male" 70 175 30 "moderate" "maintain").carbs_g := by
  have h := claim_C8_macros_nonneg "male" "moderate" "maintain" 70 175 30 (by norm_num)
  refine ⟨h.1, h.2.1 ?_, h.2.2 ?_⟩
  · rw [calorieTarget_witness_value]; norm_num
  · rw [calorieTarget_witness_value, if_neg (by decide), if_neg (by decide)]
    norm_num


lemma subScanF_nil (n : Nat) (f : Bool) : subScanF n f [] = [] := by
  cases n <;> rfl

lemma subScanF_congr : ∀ (fuel fuel' : Nat) (f : Bool) (l : List Char),
    l.length ≤ fuel → l.length ≤ fuel' → subScanF fuel f l = subScanF fuel' f l := by
  intro fuel
  induction fuel with
  | zero =>
    intro fuel' f l h _
    have : l = [] := List.length_eq_zero.mp (Nat.le_zero.mp h)
    subst this
    rw [subScanF_nil, subScanF_nil]
  | succ fu ih =>
    intro fuel' f l h h'
    cases l with
    | nil => rw [subScanF_nil, subScanF_nil]
    | cons c cs =>
      cases fuel' with
      | zero => simp at h'
      | succ fu' =>
        simp only [List.length_cons] at h h'
        simp only [subScanF]
        by_cases hn : fenceMatchLen f (c :: cs) = 0
        · simp only [hn, if_pos rfl, reduceIte]
          have hcs : cs.length ≤ fu := by simpa using h
          have hcs' : cs.length ≤ fu' := by simpa using h'
          rw [ih fu' (c == '\n') cs hcs hcs']
        · simp only [hn, if_neg hn, reduceIte]
          have hd : ((c :: cs).drop (fenceMatchLen f (c :: cs))).length ≤ fu := by
            simp only [List.length_drop, List.length_cons]
            omega
          have hd' : ((c :: cs).drop (fenceMatchLen f (c :: cs))).length ≤ fu' := by
            simp only [List.length_drop, List.length_cons]
            omega
          exact ih fu' _ _ hd hd'

lemma subScan_cons (f : Bool) (c : Char) (cs : List Char) :
    subScan f (c :: cs) =
      if fenceMatchLen f (c :: cs) = 0 then c :: subScan (c == '\n') cs
      else subScan ((c :: cs).get? (fenceMatchLen f (c :: cs) - 1) == some '\n')
        ((c :: cs).drop (fenceMatchLen f (c :: cs))) := by
  unfold subScan
  simp only [List.length_cons, subScanF]
  by_cases hn : fenceMatchLen f (c :: cs) = 0
  · simp only [hn, if_pos rfl, reduceIte]
  · simp only [hn, if_neg hn, reduceIte]
    apply subScanF_congr
    · simp only [List.length_drop, List.length_cons]
      omega
    · exact le_rfl

lemma subScan_copy {f : Bool} {c : Char} {cs : List Char}
    (h : fenceMatchLen f (c :: cs) = 0) :
    subScan f (c :: cs) = c :: subScan (c == '\n') cs := by
  rw [subScan_cons, if_pos h]

lemma subScan_match {f : Bool} {l : List Char} (hl : l ≠ [])
    (h : fenceMatchLen f l ≠ 0) :
    subScan f l = subScan (l.get? (fenceMatchLen f l - 1) == some '\n')
      (l.drop (fenceMatchLen f l)) := by
  cases l with
  | nil => exact absurd rfl hl
  | cons c cs => rw [subScan_cons, if_neg h]

lemma fence_isPrefixOf_append_nl3 (u : List Char) :
    fenceChars.isPrefixOf (u ++ nl3) = fenceChars.isPrefixOf u := by
  match u with
  | [] => rfl
  | [a] => simp [fenceChars, nl3, List.isPrefixOf]
  | [a, b] => simp [fenceChars, nl3, List.isPrefixOf]
  | a :: b :: c' :: rest => simp [fenceChars, nl3, List.isPrefixOf]

lemma json_isPrefixOf_append_nl3 (u : List Char) :
    jsonChars.isPrefixOf (u ++ nl3) = jsonChars.isPrefixOf u := by
  match u with
  | [] => rfl
  | [a] => simp [jsonChars, nl3, fenceChars, List.isPrefixOf]
  | [a, b] => simp [jsonChars, nl3, fenceChars, List.isPrefixOf]
  | [a, b, c'] => simp [jsonChars, nl3, fenceChars, List.isPrefixOf]
  | a :: b :: c' :: d :: rest => simp [jsonChars, nl3, fenceChars, List.isPrefixOf]

lemma takeWhile_ws_append_nl3 (u : List Char) :
    (u ++ nl3).takeWhile isPySpace =
      if u.all isPySpace then u ++ ['\n'] else u.takeWhile isPySpace := by
  induction u with
  | nil => rfl
  | cons c cs ih =>
    by_cases hc : isPySpace c
    · simp only [List.cons_append, List.takeWhile_cons, hc, List.all_cons, Bool.true_and, ih]
      by_cases hall : cs.all isPySpace
      · simp [hall]
      · simp [hall, List.takeWhile_cons, hc]
    · have hc' : isPySpace c = false := by simpa using hc
      simp [List.cons_append, List.takeWhile_cons, hc', List.all_cons]

lemma atLineEnd_append_nl3 (r : List Char) :
    atLineEnd (r ++ nl3) = atLineEnd r := by
  cases r with
  | nil => rfl
  | cons c cs => rfl


lemma bool_eq_false {b : Bool} (h : ¬ b = true) : b = false := by
  cases b
  · rfl
  · exact absurd rfl h

lemma drop_takeWhile_len (p : Char → Bool) (l : List Char) :
    l.drop (l.takeWhile p).length = l.dropWhile p := by
  induction l with
  | nil => rfl
  | cons c cs ih =>
    by_cases hc : p c
    · simp [List.takeWhile_cons, List.dropWhile_cons, hc, ih]
    · have hc' : p c = false := by simpa using hc
      simp [List.takeWhile_cons, List.dropWhile_cons, hc']

lemma all_of_takeWhile_len_eq {p : Char → Bool} {l : List Char}
    (h : (l.takeWhile p).length = l.length) : l.all p = true := by
  have heq : l.takeWhile p = l :=
    (List.takeWhile_sublist p).eq_of_length_le (le_of_eq h.symm)
  rw [List.all_eq_true]
  intro x hx
  exact List.mem_takeWhile_imp (heq.symm ▸ hx)

lemma takeWhile_len_of_all {p : Char → Bool} {l : List Char}
    (h : l.all p = true) : (l.takeWhile p).length = l.length := by
  rw [List.takeWhile_eq_self_iff.mpr (fun x hx => (List.all_eq_true.mp h) x hx)]

lemma dropWhile_nil_of_all {p : Char → Bool} {l : List Char}
    (h : l.all p = true) : l.dropWhile p = [] := by
  rw [← drop_takeWhile_len, takeWhile_len_of_all h, List.drop_length]

lemma takeWhile_append_not_all {p : Char → Bool} {u : List Char} (t : List Char)
    (h : u.all p = false) : (u ++ t).takeWhile p = u.takeWhile p := by
  induction u with
  | nil => simp at h
  | cons c cs ih =>
    rw [List.all_cons] at h
    by_cases hc : p c
    · have hcs : cs.all p = false := by
        rw [hc] at h
        simpa using h
      simp [List.takeWhile_cons, hc, ih hcs]
    · have hc' : p c = false := by simpa using hc
      simp [List.takeWhile_cons, hc']

lemma dropWhile_append_not_all {p : Char → Bool} {u : List Char} (t : List Char)
    (h : u.all p = false) : (u ++ t).dropWhile p = u.dropWhile p ++ t := by
  induction u with
  | nil => simp at h
  | cons c cs ih =>
    rw [List.all_cons] at h
    by_cases hc : p c
    · have hcs : cs.all p = false := by
        rw [hc] at h
        simpa using h
      simp [List.dropWhile_cons, hc, ih hcs]
    · have hc' : p c = false := by simpa using hc
      simp [List.dropWhile_cons, hc']

lemma fence_not_prefixOf_ws {c : Char} (cs : List Char) (hc : isPySpace c = true) :
    fenceChars.isPrefixOf (c :: cs) = false := by
  have hb : ('`' == c) = false := by
    rcases Bool.eq_false_or_eq_true ('`' == c) with h | h
    · have : '`' = c := beq_iff_eq.mp h
      rw [← this] at hc
      exact absurd hc (by decide)
    · exact h
  simp [fenceChars, List.isPrefixOf, hb]

lemma branch1Len_ne_zero_iff (f : Bool) (l : List Char) :
    branch1Len f l ≠ 0 ↔ (f = true ∧ fenceChars.isPrefixOf l = true) := by
  unfold branch1Len
  by_cases h : (f && fenceChars.isPrefixOf l) = true
  · rw [if_pos h]
    rw [Bool.and_eq_true] at h
    constructor
    · intro _
      exact h
    · intro _
      dsimp only
      split <;> omega
  · rw [if_neg h]
    rw [Bool.and_eq_true] at h
    constructor
    · intro h0
      exact absurd rfl h0
    · intro hc
      exact absurd hc h

lemma branch1Len_pos_eval {f : Bool} {u : List Char} (hf : f = true)
    (hfence : fenceChars.isPrefixOf u = true) :
    branch1Len f u = if jsonChars.isPrefixOf (u.drop 3) = true
      then 7 + ((u.drop 7).takeWhile isPySpace).length
      else 3 + ((u.drop 3).takeWhile isPySpace).length := by
  subst hf
  unfold branch1Len
  rw [if_pos (by simp [hfence])]
  by_cases hj : jsonChars.isPrefixOf (u.drop 3) = true
  · simp [hj, List.drop_drop]
  · have hj' : jsonChars.isPrefixOf (u.drop 3) = false := bool_eq_false hj
    simp [hj']

lemma branch1Len_le (f : Bool) (l : List Char) : branch1Len f l ≤ l.length := by
  by_cases h : branch1Len f l = 0
  · omega
  · obtain ⟨hf, hfence⟩ := (branch1Len_ne_zero_iff f l).mp h
    have h3 : 3 ≤ l.length := by
      have := (List.isPrefixOf_iff_prefix.mp hfence).length_le
      simpa [fenceChars] using this
    rw [branch1Len_pos_eval hf hfence]
    by_cases hj : jsonChars.isPrefixOf (l.drop 3) = true
    · have h4 : 4 ≤ (l.drop 3).length := by
        have := (List.isPrefixOf_iff_prefix.mp hj).length_le
        simpa [jsonChars] using this
      have hws := (List.takeWhile_sublist isPySpace (l := l.drop 7)).length_le
      rw [if_pos hj]
      simp only [List.length_drop] at h4 hws
      omega
    · have hj' : jsonChars.isPrefixOf (l.drop 3) = false := bool_eq_false hj
      have hws := (List.takeWhile_sublist isPySpace (l := l.drop 3)).length_le
      rw [if_neg (by simp [hj'])]
      simp only [List.length_drop] at hws
      omega

lemma branch2Len_eval (l : List Char) :
    branch2Len l =
      if (fenceChars.isPrefixOf (l.dropWhile isPySpace)
          && atLineEnd ((l.dropWhile isPySpace).drop 3)) = true
      then (l.takeWhile isPySpace).length + 3 else 0 := by
  unfold branch2Len
  dsimp only
  rw [drop_takeWhile_len]

lemma branch2Len_le (l : List Char) : branch2Len l ≤ l.length := by
  rw [branch2Len_eval]
  by_cases h : (fenceChars.isPrefixOf (l.dropWhile isPySpace)
      && atLineEnd ((l.dropWhile isPySpace).drop 3)) = true
  · rw [if_pos h]
    rw [Bool.and_eq_true] at h
    have h3 : 3 ≤ (l.dropWhile isPySpace).length := by
      have := (List.isPrefixOf_iff_prefix.mp h.1).length_le
      simpa [fenceChars] using this
    have hk := (List.takeWhile_sublist isPySpace (l := l)).length_le
    rw [← drop_takeWhile_len] at h3
    simp only [List.length_drop] at h3
    omega
  · rw [if_neg h]
    omega


lemma drop3_append_nl3 {u : List Char} (h3 : 3 ≤ u.length) :
    (u ++ nl3).drop 3 = u.drop 3 ++ nl3 := by
  rw [List.drop_append_eq_append_drop, Nat.sub_eq_zero_of_le h3, List.drop]

lemma branch1Len_append_zero {f : Bool} {u : List Char} (h : branch1Len f u = 0) :
    branch1Len f (u ++ nl3) = 0 := by
  by_contra hne
  obtain ⟨hf, hfence⟩ := (branch1Len_ne_zero_iff f (u ++ nl3)).mp hne
  rw [fence_isPrefixOf_append_nl3] at hfence
  exact absurd h ((branch1Len_ne_zero_iff f u).mpr ⟨hf, hfence⟩)

lemma fence_len_le {u : List Char} (h : fenceChars.isPrefixOf u = true) :
    3 ≤ u.length := by
  have := (List.isPrefixOf_iff_prefix.mp h).length_le
  simpa [fenceChars] using this

lemma json_len_le {u : List Char} (h : jsonChars.isPrefixOf u = true) :
    4 ≤ u.length := by
  have := (List.isPrefixOf_iff_prefix.mp h).length_le
  simpa [jsonChars] using this

lemma branch1Len_append_pos {f : Bool} {u : List Char} (h : branch1Len f u ≠ 0) :
    (branch1Len f u < u.length → branch1Len f (u ++ nl3) = branch1Len f u) ∧
    (branch1Len f u = u.length → branch1Len f (u ++ nl3) = u.length + 1) := by
  obtain ⟨hf, hfence⟩ := (branch1Len_ne_zero_iff f u).mp h
  have h3 : 3 ≤ u.length := fence_len_le hfence
  have hfence' : fenceChars.isPrefixOf (u ++ nl3) = true := by
    rw [fence_isPrefixOf_append_nl3]
    exact hfence
  have hd3 : (u ++ nl3).drop 3 = u.drop 3 ++ nl3 := drop3_append_nl3 h3
  have hjeq : jsonChars.isPrefixOf ((u ++ nl3).drop 3) = jsonChars.isPrefixOf (u.drop 3) := by
    rw [hd3, json_isPrefixOf_append_nl3]
  rw [branch1Len_pos_eval hf hfence, branch1Len_pos_eval hf hfence', hjeq]
  by_cases hj : jsonChars.isPrefixOf (u.drop 3) = true
  · have h7 : 7 ≤ u.length := by
      have := json_len_le hj
      simp only [List.length_drop] at this
      omega
    have hd7 : (u ++ nl3).drop 7 = u.drop 7 ++ nl3 := by
      rw [List.drop_append_eq_append_drop, Nat.sub_eq_zero_of_le h7, List.drop]
    rw [if_pos hj, if_pos hj, hd7, takeWhile_ws_append_nl3]
    have hlt : (List.takeWhile isPySpace (u.drop 7)).length ≤ u.length - 7 := by
      have := (List.takeWhile_sublist isPySpace (l := u.drop 7)).length_le
      simpa [List.length_drop] using this
    constructor
    · intro hlt'
      rw [if_neg ?hall]
      case hall =>
        intro hall
        rw [takeWhile_len_of_all hall] at hlt'
        simp only [List.length_drop] at hlt'
        omega
    · intro heq
      have hall : (u.drop 7).all isPySpace = true := by
        apply all_of_takeWhile_len_eq
        simp only [List.length_drop]
        omega
      rw [if_pos hall]
      simp only [List.length_append, List.length_drop, List.length_cons,
        List.length_nil]
      omega
  · have hj' : jsonChars.isPrefixOf (u.drop 3) = false := bool_eq_false hj
    rw [if_neg (by simp [hj']), if_neg (by simp [hj']), hd3, takeWhile_ws_append_nl3]
    have hlt : (List.takeWhile isPySpace (u.drop 3)).length ≤ u.length - 3 := by
      have := (List.takeWhile_sublist isPySpace (l := u.drop 3)).length_le
      simpa [List.length_drop] using this
    constructor
    · intro hlt'
      rw [if_neg ?hall]
      case hall =>
        intro hall
        rw [takeWhile_len_of_all hall] at hlt'
        simp only [List.length_drop] at hlt'
        omega
    · intro heq
      have hall : (u.drop 3).all isPySpace = true := by
        apply all_of_takeWhile_len_eq
        simp only [List.length_drop]
        omega
      rw [if_pos hall]
      simp only [List.length_append, List.length_drop, List.length_cons,
        List.length_nil]
      omega

lemma branch2Len_append_pos {u : List Char} (h : branch2Len u ≠ 0) :
    branch2Len (u ++ nl3) = branch2Len u := by
  rw [branch2Len_eval] at h
  have hcond : (fenceChars.isPrefixOf (u.dropWhile isPySpace)
      && atLineEnd ((u.dropWhile isPySpace).drop 3)) = true := by
    by_contra hc
    rw [if_neg hc] at h
    exact h rfl
  rw [Bool.and_eq_true] at hcond
  have hall : u.all isPySpace = false := by
    rcases Bool.eq_false_or_eq_true (u.all isPySpace) with h' | h'
    · rw [dropWhile_nil_of_all h'] at hcond
      exact absurd hcond.1 (by decide)
    · exact h'
  have hdw : (u ++ nl3).dropWhile isPySpace = u.dropWhile isPySpace ++ nl3 :=
    dropWhile_append_not_all nl3 hall
  have htw : (u ++ nl3).takeWhile isPySpace = u.takeWhile isPySpace :=
    takeWhile_append_not_all nl3 hall
  have h3 : 3 ≤ (u.dropWhile isPySpace).length := fence_len_le hcond.1
  rw [branch2Len_eval, branch2Len_eval, hdw, htw, fence_isPrefixOf_append_nl3,
    drop3_append_nl3 h3, atLineEnd_append_nl3]

lemma branch2Len_append_all {u : List Char} (hall : u.all isPySpace = true) :
    branch2Len (u ++ nl3) = u.length + 4 := by
  rw [branch2Len_eval]
  have htw : (u ++ nl3).takeWhile isPySpace = u ++ ['\n'] := by
    rw [takeWhile_ws_append_nl3, if_pos hall]
  have hdw : (u ++ nl3).dropWhile isPySpace = fenceChars := by
    rw [← drop_takeWhile_len, htw, List.length_append, List.drop_append_eq_append_drop]
    simp [nl3]
  rw [hdw, htw]
  rw [if_pos (by decide)]
  simp

lemma branch2Len_append_zero {u : List Char} (hall : u.all isPySpace = false)
    (h : branch2Len u = 0) : branch2Len (u ++ nl3) = 0 := by
  rw [branch2Len_eval] at h
  have hcond : (fenceChars.isPrefixOf (u.dropWhile isPySpace)
      && atLineEnd ((u.dropWhile isPySpace).drop 3)) = false := by
    rcases Bool.eq_false_or_eq_true (fenceChars.isPrefixOf (u.dropWhile isPySpace)
        && atLineEnd ((u.dropWhile isPySpace).drop 3)) with h' | h'
    · rw [if_pos h'] at h
      omega
    · exact h'
  have hdw : (u ++ nl3).dropWhile isPySpace = u.dropWhile isPySpace ++ nl3 :=
    dropWhile_append_not_all nl3 hall
  rw [branch2Len_eval, hdw, fence_isPrefixOf_append_nl3]
  rw [Bool.and_eq_false_iff] at hcond
  rcases hcond with hc | hc
  · rw [if_neg (by simp [hc])]
  · by_cases hfp : fenceChars.isPrefixOf (u.dropWhile isPySpace) = true
    · have h3 : 3 ≤ (u.dropWhile isPySpace).length := fence_len_le hfp
      rw [drop3_append_nl3 h3, atLineEnd_append_nl3]
      rw [if_neg (by simp [hc])]
    · rw [if_neg (by simp [bool_eq_false hfp])]

lemma fenceMatchLen_eq_b1 {f : Bool} {l : List Char} (h : branch1Len f l ≠ 0) :
    fenceMatchLen f l = branch1Len f l := by
  unfold fenceMatchLen
  rw [if_pos h]

lemma fenceMatchLen_eq_b2 {f : Bool} {l : List Char} (h : branch1Len f l = 0) :
    fenceMatchLen f l = branch2Len l := by
  unfold fenceMatchLen
  rw [if_neg (by simp [h])]

lemma fenceMatchLen_all_ws {u : List Char} (f : Bool)
    (hall : u.all isPySpace = true) : fenceMatchLen f u = 0 := by
  cases u with
  | nil => cases f <;> rfl
  | cons c cs =>
    rw [List.all_cons, Bool.and_eq_true] at hall
    have hb1 : branch1Len f (c :: cs) = 0 := by
      by_contra hne
      obtain ⟨_, hfence⟩ := (branch1Len_ne_zero_iff f (c :: cs)).mp hne
      rw [fence_not_prefixOf_ws cs hall.1] at hfence
      exact absurd hfence (by decide)
    rw [fenceMatchLen_eq_b2 hb1, branch2Len_eval]
    rw [dropWhile_nil_of_all (by rw [List.all_cons, Bool.and_eq_true]; exact hall)]
    rw [if_neg (by decide)]

lemma subScan_all_ws {u : List Char} (hall : u.all isPySpace = true) (f : Bool) :
    subScan f u = u := by
  induction u generalizing f with
  | nil => rfl
  | cons c cs ih =>
    rw [subScan_copy (fenceMatchLen_all_ws f hall)]
    rw [List.all_cons, Bool.and_eq_true] at hall
    rw [ih hall.2]


lemma subScan_nl3 (f : Bool) : subScan f nl3 = [] := by
  cases f <;> rfl

lemma subScan_fence_true : subScan true fenceChars = [] := by rfl

lemma subScan_append_nl3 : ∀ (N : Nat) (u : List Char) (f : Bool), u.length ≤ N →
    ∃ w, (∀ c ∈ w, isPySpace c = true) ∧
      subScan f u = subScan f (u ++ nl3) ++ w := by
  intro N
  induction N with
  | zero =>
    intro u f h
    have hu : u = [] := List.length_eq_zero.mp (Nat.le_zero.mp h)
    subst hu
    refine ⟨[], by simp, ?_⟩
    simp only [List.nil_append, subScan_nl3, List.append_nil]
    rfl
  | succ N ih =>
    intro u f h
    cases u with
    | nil =>
      refine ⟨[], by simp, ?_⟩
      simp only [List.nil_append, subScan_nl3, List.append_nil]
      rfl
    | cons c cs =>
      by_cases hallP : (c :: cs).all isPySpace = true
      · -- the remaining text is pure whitespace: the suffix swallows it whole
        refine ⟨c :: cs, fun x hx => (List.all_eq_true.mp hallP) x hx, ?_⟩
        rw [subScan_all_ws hallP f]
        have hws : isPySpace c = true := by
          rw [List.all_cons, Bool.and_eq_true] at hallP
          exact hallP.1
        have hb1 : branch1Len f (c :: cs) = 0 := by
          by_contra hne
          obtain ⟨_, hfence⟩ := (branch1Len_ne_zero_iff f (c :: cs)).mp hne
          rw [fence_not_prefixOf_ws cs hws] at hfence
          exact absurd hfence (by decide)
        have hn' : fenceMatchLen f ((c :: cs) ++ nl3) = (c :: cs).length + 4 := by
          rw [fenceMatchLen_eq_b2 (branch1Len_append_zero hb1), branch2Len_append_all hallP]
        rw [subScan_match (l := (c :: cs) ++ nl3) (by simp) (by rw [hn']; omega), hn']
        have hdr : ((c :: cs) ++ nl3).drop ((c :: cs).length + 4) = [] := by
          apply List.drop_eq_nil_of_le
          simp [nl3, fenceChars]
        rw [hdr]
        rfl
      · have hall' : (c :: cs).all isPySpace = false := bool_eq_false hallP
        by_cases hb1 : branch1Len f (c :: cs) = 0
        · by_cases hb2 : branch2Len (c :: cs) = 0
          · -- no match at this position on either side: copy the head
            have hn : fenceMatchLen f (c :: cs) = 0 := by
              rw [fenceMatchLen_eq_b2 hb1]
              exact hb2
            have hn' : fenceMatchLen f ((c :: cs) ++ nl3) = 0 := by
              rw [fenceMatchLen_eq_b2 (branch1Len_append_zero hb1),
                branch2Len_append_zero hall' hb2]
            obtain ⟨w, hw, hrec⟩ := ih cs (c == '\n') (by
              simp only [List.length_cons] at h
              omega)
            refine ⟨w, hw, ?_⟩
            have hR : subScan f ((c :: cs) ++ nl3) = c :: subScan (c == '\n') (cs ++ nl3) := by
              rw [show (c :: cs) ++ nl3 = c :: (cs ++ nl3) from rfl] at hn' ⊢
              exact subScan_copy hn'
            rw [subScan_copy hn, hR, hrec]
            rfl
          · -- branch2 match on both sides, of the same length
            have hn : fenceMatchLen f (c :: cs) = branch2Len (c :: cs) :=
              fenceMatchLen_eq_b2 hb1
            have hn' : fenceMatchLen f ((c :: cs) ++ nl3) = branch2Len (c :: cs) := by
              rw [fenceMatchLen_eq_b2 (branch1Len_append_zero hb1), branch2Len_append_pos hb2]
            have hpos : 1 ≤ branch2Len (c :: cs) := Nat.pos_of_ne_zero hb2
            have hle := branch2Len_le (c :: cs)
            have hflag : ((c :: cs) ++ nl3).get? (branch2Len (c :: cs) - 1)
                = (c :: cs).get? (branch2Len (c :: cs) - 1) := by
              rw [List.get?_append]
              simp only [List.length_cons]
              simp only [List.length_cons] at hle
              omega
            have hL : subScan f (c :: cs)
                = subScan ((c :: cs).get? (branch2Len (c :: cs) - 1) == some '\n')
                    ((c :: cs).drop (branch2Len (c :: cs))) := by
              rw [subScan_match (l := c :: cs) (by simp) (by rw [hn]; exact hb2), hn]
            rcases lt_or_eq_of_le hle with hlt | heq
            · -- the match stays strictly inside u: recurse
              have hdrop : ((c :: cs) ++ nl3).drop (branch2Len (c :: cs))
                  = (c :: cs).drop (branch2Len (c :: cs)) ++ nl3 := by
                rw [List.drop_append_eq_append_drop, Nat.sub_eq_zero_of_le (le_of_lt hlt),
                  List.drop]
              have hR : subScan f ((c :: cs) ++ nl3)
                  = subScan ((c :: cs).get? (branch2Len (c :: cs) - 1) == some '\n')
                      ((c :: cs).drop (branch2Len (c :: cs)) ++ nl3) := by
                rw [subScan_match (l := (c :: cs) ++ nl3) (by simp)
                    (by rw [hn']; exact hb2), hn', hflag, hdrop]
              obtain ⟨w, hw, hrec⟩ := ih ((c :: cs).drop (branch2Len (c :: cs)))
                ((c :: cs).get? (branch2Len (c :: cs) - 1) == some '\n') (by
                  simp only [List.length_drop, List.length_cons]
                  simp only [List.length_cons] at h
                  omega)
              exact ⟨w, hw, by rw [hL, hR, hrec]⟩
            · -- the match ends exactly at the end of u
              refine ⟨[], by simp, ?_⟩
              have hd1 : (c :: cs).drop (branch2Len (c :: cs)) = [] := by
                rw [heq, List.drop_length]
              have hd2 : ((c :: cs) ++ nl3).drop (branch2Len (c :: cs)) = nl3 := by
                rw [List.drop_append_eq_append_drop, heq, List.drop_length, Nat.sub_self,
                  List.nil_append, List.drop]
              have hR : subScan f ((c :: cs) ++ nl3) = [] := by
                rw [subScan_match (l := (c :: cs) ++ nl3) (by simp)
                    (by rw [hn']; exact hb2), hn', hd2, subScan_nl3]
              rw [hL, hR, hd1]
              rfl
        · -- branch1 match
          have hb1' := branch1Len_append_pos hb1
          have hpos : 1 ≤ branch1Len f (c :: cs) := Nat.pos_of_ne_zero hb1
          have hle := branch1Len_le f (c :: cs)
          have hn : fenceMatchLen f (c :: cs) = branch1Len f (c :: cs) :=
            fenceMatchLen_eq_b1 hb1
          have hL : subScan f (c :: cs)
              = subScan ((c :: cs).get? (branch1Len f (c :: cs) - 1) == some '\n')
                  ((c :: cs).drop (branch1Len f (c :: cs))) := by
            rw [subScan_match (l := c :: cs) (by simp) (by rw [hn]; exact hb1), hn]
          rcases lt_or_eq_of_le hle with hlt | heq
          · -- strictly inside u: recurse
            have he := hb1'.1 hlt
            have hn' : fenceMatchLen f ((c :: cs) ++ nl3) = branch1Len f (c :: cs) := by
              rw [fenceMatchLen_eq_b1 (by rw [he]; exact hb1), he]
            have hflag : ((c :: cs) ++ nl3).get? (branch1Len f (c :: cs) - 1)
                = (c :: cs).get? (branch1Len f (c :: cs) - 1) := by
              rw [List.get?_append]
              simp only [List.length_cons]
              simp only [List.length_cons] at hle
              omega
            have hdrop : ((c :: cs) ++ nl3).drop (branch1Len f (c :: cs))
                = (c :: cs).drop (branch1Len f (c :: cs)) ++ nl3 := by
              rw [List.drop_append_eq_append_drop, Nat.sub_eq_zero_of_le (le_of_lt hlt),
                List.drop]
            have hR : subScan f ((c :: cs) ++ nl3)
                = subScan ((c :: cs).get? (branch1Len f (c :: cs) - 1) == some '\n')
                    ((c :: cs).drop (branch1Len f (c :: cs)) ++ nl3) := by
              rw [subScan_match (l := (c :: cs) ++ nl3) (by simp)
                  (by rw [hn']; exact hb1), hn', hflag, hdrop]
            obtain ⟨w, hw, hrec⟩ := ih ((c :: cs).drop (branch1Len f (c :: cs)))
              ((c :: cs).get? (branch1Len f (c :: cs) - 1) == some '\n') (by
                simp only [List.length_drop, List.length_cons]
                simp only [List.length_cons] at h
                omega)
            exact ⟨w, hw, by rw [hL, hR, hrec]⟩
          · -- the greedy whitespace run reaches the end of u: it extends one
            -- character into the suffix and the leftover fence self-deletes
            have he := hb1'.2 heq
            have hn' : fenceMatchLen f ((c :: cs) ++ nl3) = (c :: cs).length + 1 := by
              rw [fenceMatchLen_eq_b1 (by rw [he]; omega), he]
            refine ⟨[], by simp, ?_⟩
            have hd1 : (c :: cs).drop (branch1Len f (c :: cs)) = [] := by
              rw [heq, List.drop_length]
            have hd2 : ((c :: cs) ++ nl3).drop ((c :: cs).length + 1) = fenceChars := by
              rw [List.drop_append_eq_append_drop, List.drop_eq_nil_of_le (by omega)]
              simp [nl3]
            have hflag2 : ((c :: cs) ++ nl3).get? ((c :: cs).length + 1 - 1) = some '\n' := by
              rw [List.get?_append_right (by omega)]
              simp [nl3]
            have hR : subScan f ((c :: cs) ++ nl3) = [] := by
              rw [subScan_match (l := (c :: cs) ++ nl3) (by simp) (by rw [hn']; omega),
                hn', hd2, hflag2]
              rw [show ((some '\n' == some '\n') : Bool) = true from rfl, subScan_fence_true]
            rw [hL, hR, hd1]
            rfl


lemma wsFlagF_eq_flagAfter (v : List Char) (f : Bool) :
    wsFlagF v f = flagAfter (v.takeWhile isPySpace) f := rfl

lemma takeWhile_append_all {p : Char → Bool} {w t : List Char}
    (hw : ∀ c ∈ w, p c = true) : (w ++ t).takeWhile p = w ++ t.takeWhile p := by
  induction w with
  | nil => rfl
  | cons c cs ih =>
    have hc : p c = true := hw c (List.mem_cons_self c cs)
    simp only [List.cons_append, List.takeWhile_cons, hc, if_pos rfl, reduceIte]
    rw [ih (fun x hx => hw x (List.mem_cons_of_mem c hx))]

lemma dropWhile_append_all {p : Char → Bool} {w t : List Char}
    (hw : ∀ c ∈ w, p c = true) : (w ++ t).dropWhile p = t.dropWhile p := by
  induction w with
  | nil => rfl
  | cons c cs ih =>
    have hc : p c = true := hw c (List.mem_cons_self c cs)
    simp only [List.cons_append, List.dropWhile_cons, hc, if_pos rfl, reduceIte]
    exact ih (fun x hx => hw x (List.mem_cons_of_mem c hx))

lemma rstripWs_append_ws {x w : List Char} (hw : ∀ c ∈ w, isPySpace c = true) :
    rstripWs (x ++ w) = rstripWs x := by
  unfold rstripWs
  rw [List.reverse_append, dropWhile_append_all (fun c hc => hw c (List.mem_reverse.mp hc))]

lemma stripWs_append_ws {x w : List Char} (hw : ∀ c ∈ w, isPySpace c = true) :
    stripWs (x ++ w) = stripWs x := by
  unfold stripWs
  rw [rstripWs_append_ws hw]

lemma rstripWs_eq_nil_of_all {l : List Char} (h : l.all isPySpace = true) :
    rstripWs l = [] := by
  unfold rstripWs
  have hrev : l.reverse.dropWhile isPySpace = [] := by
    rw [List.dropWhile_eq_nil_iff]
    intro x hx
    exact (List.all_eq_true.mp h) x (List.mem_reverse.mp hx)
  rw [hrev, List.reverse_nil]

lemma rstripWs_append_not_all {w x : List Char} (h : x.all isPySpace = false) :
    rstripWs (w ++ x) = w ++ rstripWs x := by
  unfold rstripWs
  have hrev : x.reverse.all isPySpace = false := by
    rw [List.all_reverse]
    exact h
  rw [List.reverse_append, dropWhile_append_not_all _ hrev, List.reverse_append,
    List.reverse_reverse]

lemma stripWs_ws_append {w x : List Char} (hw : ∀ c ∈ w, isPySpace c = true) :
    stripWs (w ++ x) = stripWs x := by
  unfold stripWs
  rcases Bool.eq_false_or_eq_true (x.all isPySpace) with hx | hx
  · have hall : (w ++ x).all isPySpace = true := by
      rw [List.all_eq_true]
      intro c hc
      rcases List.mem_append.mp hc with h | h
      · exact hw c h
      · exact (List.all_eq_true.mp hx) c h
    rw [rstripWs_eq_nil_of_all hall, rstripWs_eq_nil_of_all hx]
  · rw [rstripWs_append_not_all hx]
    unfold lstripWs
    rw [dropWhile_append_all hw]

lemma dropWhile_eq_self_of_takeWhile_nil {p : Char → Bool} {t : List Char}
    (h : t.takeWhile p = []) : t.dropWhile p = t := by
  rw [← drop_takeWhile_len, h, List.length_nil, List.drop]

lemma takeWhile_dropWhile_nil (p : Char → Bool) (l : List Char) :
    (l.dropWhile p).takeWhile p = [] := by
  induction l with
  | nil => rfl
  | cons c cs ih =>
    by_cases hc : p c
    · simp [List.dropWhile_cons, hc, ih]
    · have hc' : p c = false := bool_eq_false hc
      simp [List.dropWhile_cons, hc', List.takeWhile_cons]

lemma json_not_prefixOf_of_lineEnd {r : List Char} (h : atLineEnd r = true) :
    jsonChars.isPrefixOf r = false := by
  cases r with
  | nil => rfl
  | cons c rest =>
    have hc : c = '\n' := by
      simpa [atLineEnd] using h
    subst hc
    rfl

lemma get?_eq_getLast?_takeWhile {r : List Char} {K : Nat}
    (hK : (r.takeWhile isPySpace).length = K) (hpos : K ≠ 0) :
    r.get? (K - 1) = (r.takeWhile isPySpace).getLast? := by
  obtain ⟨rest, hrest⟩ := List.takeWhile_prefix (p := isPySpace) (l := r)
  rw [List.getLast?_eq_get?, hK]
  conv_lhs => rw [← hrest]
  rw [List.get?_append (by omega)]

lemma subScan_ws_prefix : ∀ (w : List Char) (t : List Char) (f : Bool),
    (∀ c ∈ w, isPySpace c = true) → t.takeWhile isPySpace = [] →
    (fenceChars.isPrefixOf t && atLineEnd (t.drop 3)) = false →
    subScan f (w ++ t) = w ++ subScan (flagAfter w f) t := by
  intro w
  induction w with
  | nil =>
    intro t f _ _ _
    rfl
  | cons d w' ih =>
    intro t f hw ht hC
    have hd : isPySpace d = true := hw d (List.mem_cons_self d w')
    have hw' : ∀ c ∈ w', isPySpace c = true := fun c hc => hw c (List.mem_cons_of_mem d hc)
    have hb1 : branch1Len f (d :: (w' ++ t)) = 0 := by
      by_contra hne
      obtain ⟨_, hfence⟩ := (branch1Len_ne_zero_iff f _).mp hne
      rw [fence_not_prefixOf_ws _ hd] at hfence
      exact absurd hfence (by decide)
    have hdw : (d :: (w' ++ t)).dropWhile isPySpace = t := by
      rw [List.dropWhile_cons, if_pos (by rw [hd]), dropWhile_append_all hw',
        dropWhile_eq_self_of_takeWhile_nil ht]
    have hb2 : branch2Len (d :: (w' ++ t)) = 0 := by
      rw [branch2Len_eval, hdw, if_neg (by simp [hC])]
    have hn : fenceMatchLen f (d :: (w' ++ t)) = 0 := by
      rw [fenceMatchLen_eq_b2 hb1]
      exact hb2
    have hstep : subScan f ((d :: w') ++ t) = d :: subScan (d == '\n') (w' ++ t) := by
      rw [List.cons_append]
      exact subScan_copy hn
    rw [hstep, ih t (d == '\n') hw' ht hC]
    have hflag : flagAfter w' (d == '\n') = flagAfter (d :: w') f := by
      cases w' with
      | nil => rfl
      | cons e w'' =>
        obtain ⟨ch, hch⟩ := Option.isSome_iff_exists.mp
          (List.getLast?_isSome.mpr (List.cons_ne_nil e w''))
        unfold flagAfter
        rw [List.getLast?_cons_cons, hch]
    rw [hflag]
    rfl

lemma subScan_ws_branch2 {w t : List Char} (f : Bool)
    (hw : ∀ c ∈ w, isPySpace c = true) (hwne : w ≠ [])
    (hfence : fenceChars.isPrefixOf t = true) (hend : atLineEnd (t.drop 3) = true) :
    subScan f (w ++ t) = subScan false (t.drop 3) := by
  obtain ⟨rest, hrest⟩ := List.isPrefixOf_iff_prefix.mp hfence
  have ht : t.takeWhile isPySpace = [] := by
    rw [← hrest]
    rfl
  cases w with
  | nil => exact absurd rfl hwne
  | cons d w' =>
    have hd : isPySpace d = true := hw d (List.mem_cons_self d w')
    have hw' : ∀ c ∈ w', isPySpace c = true := fun c hc => hw c (List.mem_cons_of_mem d hc)
    have hb1 : branch1Len f ((d :: w') ++ t) = 0 := by
      by_contra hne
      obtain ⟨_, hfence'⟩ := (branch1Len_ne_zero_iff f _).mp hne
      rw [List.cons_append, fence_not_prefixOf_ws _ hd] at hfence'
      exact absurd hfence' (by decide)
    have htw : ((d :: w') ++ t).takeWhile isPySpace = d :: w' := by
      rw [takeWhile_append_all hw, ht, List.append_nil]
    have hdw : ((d :: w') ++ t).dropWhile isPySpace = t := by
      rw [dropWhile_append_all hw, dropWhile_eq_self_of_takeWhile_nil ht]
    have hb2 : branch2Len ((d :: w') ++ t) = (d :: w').length + 3 := by
      rw [branch2Len_eval, hdw, htw, if_pos (by rw [hfence, hend]; rfl)]
    have hn : fenceMatchLen f ((d :: w') ++ t) = (d :: w').length + 3 := by
      rw [fenceMatchLen_eq_b2 hb1]
      exact hb2
    have hflag : ((d :: w') ++ t).get? ((d :: w').length + 3 - 1) = some '`' := by
      rw [List.get?_append_right (by omega)]
      have : (d :: w').length + 3 - 1 - (d :: w').length = 2 := by omega
      rw [this, ← hrest]
      rfl
    have hdrop : ((d :: w') ++ t).drop ((d :: w').length + 3) = t.drop 3 := by
      rw [List.drop_append_eq_append_drop, List.drop_eq_nil_of_le (by omega),
        List.nil_append]
      congr 1
      omega
    rw [subScan_match (l := (d :: w') ++ t) (by simp) (by rw [hn]; omega), hn, hflag,
      hdrop]
    rfl


lemma subScan_strip_dropWs : ∀ (N : Nat) (v : List Char) (f : Bool), v.length ≤ N →
    stripWs (subScan (wsFlagF v f) (v.dropWhile isPySpace)) = stripWs (subScan f v) := by
  intro N
  induction N with
  | zero =>
    intro v f h
    have hv : v = [] := List.length_eq_zero.mp (Nat.le_zero.mp h)
    subst hv
    rfl
  | succ N ih =>
    intro v f hlen
    by_cases hw0 : v.takeWhile isPySpace = []
    · rw [dropWhile_eq_self_of_takeWhile_nil hw0, wsFlagF_eq_flagAfter, hw0]
      rfl
    · have hvsplit : v.takeWhile isPySpace ++ v.dropWhile isPySpace = v :=
        List.takeWhile_append_dropWhile isPySpace v
      have hwall : ∀ c ∈ v.takeWhile isPySpace, isPySpace c = true :=
        fun c hc => List.mem_takeWhile_imp hc
      have htnil : (v.dropWhile isPySpace).takeWhile isPySpace = [] :=
        takeWhile_dropWhile_nil _ _
      by_cases hC : (fenceChars.isPrefixOf (v.dropWhile isPySpace)
          && atLineEnd ((v.dropWhile isPySpace).drop 3)) = true
      · rw [Bool.and_eq_true] at hC
        have hRHS : subScan f v = subScan false ((v.dropWhile isPySpace).drop 3) := by
          conv_lhs => rw [← hvsplit]
          exact subScan_ws_branch2 f hwall hw0 hC.1 hC.2
        obtain ⟨rest, hrest⟩ := List.isPrefixOf_iff_prefix.mp hC.1
        have ht3 : 3 ≤ (v.dropWhile isPySpace).length := fence_len_le hC.1
        have htne : v.dropWhile isPySpace ≠ [] := by
          intro hnil
          rw [hnil] at ht3
          simp at ht3
        have htg2 : (v.dropWhile isPySpace).get? 2 = some '`' := by
          rw [← hrest]
          rfl
        have hlenlt : (v.dropWhile isPySpace).length < v.length := by
          conv_rhs => rw [← hvsplit]
          rw [List.length_append]
          have : 0 < (v.takeWhile isPySpace).length := List.length_pos.mpr hw0
          omega
        rw [hRHS]
        cases hfl : wsFlagF v f with
        | false =>
          have hb1 : branch1Len false (v.dropWhile isPySpace) = 0 := by
            by_contra hne
            obtain ⟨hf, _⟩ := (branch1Len_ne_zero_iff _ _).mp hne
            simp at hf
          have hb2 : branch2Len (v.dropWhile isPySpace) = 3 := by
            rw [branch2Len_eval, dropWhile_eq_self_of_takeWhile_nil htnil, htnil,
              if_pos (by rw [hC.1, hC.2]; rfl)]
            rfl
          have hn : fenceMatchLen false (v.dropWhile isPySpace) = 3 := by
            rw [fenceMatchLen_eq_b2 hb1, hb2]
          rw [subScan_match htne (by rw [hn]; omega), hn, htg2]
          rfl
        | true =>
          have hjson : jsonChars.isPrefixOf ((v.dropWhile isPySpace).drop 3) = false :=
            json_not_prefixOf_of_lineEnd hC.2
          have hb1ne : branch1Len true (v.dropWhile isPySpace) ≠ 0 :=
            (branch1Len_ne_zero_iff _ _).mpr ⟨rfl, hC.1⟩
          have hn : fenceMatchLen true (v.dropWhile isPySpace)
              = 3 + (((v.dropWhile isPySpace).drop 3).takeWhile isPySpace).length := by
            rw [fenceMatchLen_eq_b1 hb1ne, branch1Len_pos_eval rfl hC.1,
              if_neg (by simp [hjson])]
          have hdropstep : (v.dropWhile isPySpace).drop
                (3 + (((v.dropWhile isPySpace).drop 3).takeWhile isPySpace).length)
              = ((v.dropWhile isPySpace).drop 3).dropWhile isPySpace := by
            rw [← drop_takeWhile_len isPySpace ((v.dropWhile isPySpace).drop 3),
              List.drop_drop]
          have hflagstep : (((v.dropWhile isPySpace).get?
                (3 + (((v.dropWhile isPySpace).drop 3).takeWhile isPySpace).length - 1))
              == some '\n') = wsFlagF ((v.dropWhile isPySpace).drop 3) false := by
            by_cases hK : (((v.dropWhile isPySpace).drop 3).takeWhile isPySpace).length = 0
            · rw [hK, wsFlagF_eq_flagAfter, List.length_eq_zero.mp hK]
              rw [show 3 + 0 - 1 = 2 from rfl, htg2]
              rfl
            · have hidx : ((v.dropWhile isPySpace).drop 3).get?
                  ((((v.dropWhile isPySpace).drop 3).takeWhile isPySpace).length - 1)
                  = (v.dropWhile isPySpace).get?
                    (3 + (((v.dropWhile isPySpace).drop 3).takeWhile isPySpace).length - 1) := by
                rw [List.get?_drop]
                congr 1
                omega
              rw [← hidx, get?_eq_getLast?_takeWhile rfl hK, wsFlagF_eq_flagAfter]
              have hne : ((v.dropWhile isPySpace).drop 3).takeWhile isPySpace ≠ [] := by
                intro hnil
                rw [hnil] at hK
                simp at hK
              obtain ⟨ch, hch⟩ := Option.isSome_iff_exists.mp (List.getLast?_isSome.mpr hne)
              unfold flagAfter
              rw [hch]
              rfl
          rw [subScan_match htne (by rw [hn]; omega), hn, hdropstep, hflagstep]
          exact ih ((v.dropWhile isPySpace).drop 3) false (by
            simp only [List.length_drop]
            omega)
      · have hRHS : subScan f v
            = (v.takeWhile isPySpace) ++ subScan (flagAfter (v.takeWhile isPySpace) f)
                (v.dropWhile isPySpace) := by
          conv_lhs => rw [← hvsplit]
          exact subScan_ws_prefix _ _ f hwall htnil (bool_eq_false hC)
        rw [hRHS, wsFlagF_eq_flagAfter]
        exact (stripWs_ws_append hwall).symm


lemma preJsonChars_eq : preJsonChars = ['`', '`', '`', 'j', 's', 'o', 'n', '\n'] := rfl

lemma prePlainChars_eq : prePlainChars = ['`', '`', '`', '\n'] := rfl

lemma subScan_preJson (v : List Char) :
    subScan true (preJsonChars ++ v)
      = subScan (wsFlagF v true) (v.dropWhile isPySpace) := by
  have hfence : fenceChars.isPrefixOf (preJsonChars ++ v) = true := rfl
  have hjson : jsonChars.isPrefixOf ((preJsonChars ++ v).drop 3) = true := rfl
  have hb1ne : branch1Len true (preJsonChars ++ v) ≠ 0 :=
    (branch1Len_ne_zero_iff _ _).mpr ⟨rfl, hfence⟩
  have hd7 : (preJsonChars ++ v).drop 7 = '\n' :: v := rfl
  have htw : List.takeWhile isPySpace ('\n' :: v) = '\n' :: v.takeWhile isPySpace := by
    rw [List.takeWhile_cons, if_pos (by decide)]
  have hn : fenceMatchLen true (preJsonChars ++ v)
      = 8 + (v.takeWhile isPySpace).length := by
    rw [fenceMatchLen_eq_b1 hb1ne, branch1Len_pos_eval rfl hfence, if_pos hjson, hd7,
      htw, List.length_cons]
    omega
  have hne : preJsonChars ++ v ≠ [] := by
    rw [preJsonChars_eq, List.cons_append]
    exact List.cons_ne_nil _ _
  have hdrop : (preJsonChars ++ v).drop (8 + (v.takeWhile isPySpace).length)
      = v.dropWhile isPySpace := by
    rw [List.drop_append_eq_append_drop, List.drop_eq_nil_of_le (by rw [preJsonChars_eq]; simp),
      List.nil_append, show (8 + (v.takeWhile isPySpace).length) - preJsonChars.length
        = (v.takeWhile isPySpace).length from by rw [preJsonChars_eq]; simp,
      drop_takeWhile_len]
  have hflag : (((preJsonChars ++ v).get? (8 + (v.takeWhile isPySpace).length - 1))
      == some '\n') = wsFlagF v true := by
    by_cases hK : (v.takeWhile isPySpace).length = 0
    · rw [hK, wsFlagF_eq_flagAfter, List.length_eq_zero.mp hK]
      rw [show (8 + 0 - 1 : Nat) = 7 from rfl]
      rw [List.get?_append (by rw [preJsonChars_eq]; simp)]
      rfl
    · rw [List.get?_append_right (by rw [preJsonChars_eq]; simp; omega)]
      have hidx : 8 + (v.takeWhile isPySpace).length - 1 - preJsonChars.length
          = (v.takeWhile isPySpace).length - 1 := by
        rw [preJsonChars_eq]
        simp
        omega
      rw [hidx, get?_eq_getLast?_takeWhile rfl hK, wsFlagF_eq_flagAfter]
      have hne' : v.takeWhile isPySpace ≠ [] := by
        intro hnil
        rw [hnil] at hK
        simp at hK
      obtain ⟨ch, hch⟩ := Option.isSome_iff_exists.mp (List.getLast?_isSome.mpr hne')
      unfold flagAfter
      rw [hch]
      rfl
  rw [subScan_match hne (by rw [hn]; omega), hn, hdrop, hflag]

lemma subScan_prePlain (v : List Char) :
    subScan true (prePlainChars ++ v)
      = subScan (wsFlagF v true) (v.dropWhile isPySpace) := by
  have hfence : fenceChars.isPrefixOf (prePlainChars ++ v) = true := rfl
  have hjson : jsonChars.isPrefixOf ((prePlainChars ++ v).drop 3) = false := rfl
  have hb1ne : branch1Len true (prePlainChars ++ v) ≠ 0 :=
    (branch1Len_ne_zero_iff _ _).mpr ⟨rfl, hfence⟩
  have hd3 : (prePlainChars ++ v).drop 3 = '\n' :: v := rfl
  have htw : List.takeWhile isPySpace ('\n' :: v) = '\n' :: v.takeWhile isPySpace := by
    rw [List.takeWhile_cons, if_pos (by decide)]
  have hn : fenceMatchLen true (prePlainChars ++ v)
      = 4 + (v.takeWhile isPySpace).length := by
    rw [fenceMatchLen_eq_b1 hb1ne, branch1Len_pos_eval rfl hfence, if_neg (by simp [hjson]),
      hd3, htw, List.length_cons]
    omega
  have hne : prePlainChars ++ v ≠ [] := by
    rw [prePlainChars_eq, List.cons_append]
    exact List.cons_ne_nil _ _
  have hdrop : (prePlainChars ++ v).drop (4 + (v.takeWhile isPySpace).length)
      = v.dropWhile isPySpace := by
    rw [List.drop_append_eq_append_drop, List.drop_eq_nil_of_le (by rw [prePlainChars_eq]; simp),
      List.nil_append, show (4 + (v.takeWhile isPySpace).length) - prePlainChars.length
        = (v.takeWhile isPySpace).length from by rw [prePlainChars_eq]; simp,
      drop_takeWhile_len]
  have hflag : (((prePlainChars ++ v).get? (4 + (v.takeWhile isPySpace).length - 1))
      == some '\n') = wsFlagF v true := by
    by_cases hK : (v.takeWhile isPySpace).length = 0
    · rw [hK, wsFlagF_eq_flagAfter, List.length_eq_zero.mp hK]
      rw [show (4 + 0 - 1 : Nat) = 3 from rfl]
      rw [List.get?_append (by rw [prePlainChars_eq]; simp)]
      rfl
    · rw [List.get?_append_right (by rw [prePlainChars_eq]; simp; omega)]
      have hidx : 4 + (v.takeWhile isPySpace).length - 1 - prePlainChars.length
          = (v.takeWhile isPySpace).length - 1 := by
        rw [prePlainChars_eq]
        simp
        omega
      rw [hidx, get?_eq_getLast?_takeWhile rfl hK, wsFlagF_eq_flagAfter]
      have hne' : v.takeWhile isPySpace ≠ [] := by
        intro hnil
        rw [hnil] at hK
        simp at hK
      obtain ⟨ch, hch⟩ := Option.isSome_iff_exists.mp (List.getLast?_isSome.mpr hne')
      unfold flagAfter
      rw [hch]
      rfl
  rw [subScan_match hne (by rw [hn]; omega), hn, hdrop, hflag]

lemma subScan_no_fence : ∀ (l : List Char) (f : Bool),
    (∀ k, fenceChars.isPrefixOf (l.drop k) = false) → subScan f l = l := by
  intro l
  induction l with
  | nil =>
    intro f _
    rfl
  | cons c cs ih =>
    intro f hk
    have h0 : fenceChars.isPrefixOf (c :: cs) = false := by
      have := hk 0
      simpa using this
    have hb1 : branch1Len f (c :: cs) = 0 := by
      by_contra hne
      obtain ⟨_, hfence⟩ := (branch1Len_ne_zero_iff _ _).mp hne
      rw [h0] at hfence
      exact absurd hfence (by decide)
    have hb2 : branch2Len (c :: cs) = 0 := by
      rw [branch2Len_eval]
      rw [if_neg ?_]
      intro hcond
      rw [Bool.and_eq_true] at hcond
      have hdw := hk ((c :: cs).takeWhile isPySpace).length
      rw [drop_takeWhile_len] at hdw
      rw [hdw] at hcond
      exact absurd hcond.1 (by decide)
    have hn : fenceMatchLen f (c :: cs) = 0 := by
      rw [fenceMatchLen_eq_b2 hb1]
      exact hb2
    rw [subScan_copy hn, ih (c == '\n') ?_]
    intro k
    exact hk (k + 1)

lemma no_fence_of_strContains_false {s : String} (h : strContains s "```" = false) :
    ∀ k, fenceChars.isPrefixOf (s.data.drop k) = false := by
  intro k
  by_cases hk : k ≤ s.data.length
  · unfold strContains at h
    rw [List.any_eq_false] at h
    have := h k (List.mem_range.mpr (by omega))
    have hcast : ("```" : String).data = fenceChars := rfl
    rw [hcast] at this
    exact bool_eq_false this
  · rw [List.drop_eq_nil_of_le (by omega)]
    rfl

/-- C7: the sanitizer round-trip.  Wrapping any response text in Markdown
code fences — "```json\n" (or "```\n") before and "\n```" after — and
sanitizing gives exactly the same string as sanitizing the unwrapped text,
so both parse identically; and a fence-free text (no ``` substring) is
returned unchanged apart from leading/trailing whitespace stripping. -/
theorem claim_C7_clean_json_response (s : String) :
    clean_json_response ("```json\n" ++ s ++ "\n```") = clean_json_response s ∧
    clean_json_response ("```\n" ++ s ++ "\n```") = clean_json_response s ∧
    (strContains s "```" = false → clean_json_response s = ⟨stripWs s.data⟩) := by
  have hsuf : stripWs (subScan true (s.data ++ nl3)) = stripWs (subScan true s.data) := by
    obtain ⟨w, hw, heq⟩ := subScan_append_nl3 s.data.length s.data true le_rfl
    rw [heq, stripWs_append_ws hw]
  refine ⟨?_, ?_, ?_⟩
  · show String.mk (stripWs (subScan true ("```json\n" ++ s ++ "\n```").data))
      = String.mk (stripWs (subScan true s.data))
    rw [show ("```json\n" ++ s ++ "\n```").data = preJsonChars ++ (s.data ++ nl3) from by
      show ("```json\n").data ++ s.data ++ ("\n```").data = preJsonChars ++ (s.data ++ nl3)
      rw [List.append_assoc]
      rfl]
    rw [subScan_preJson, subScan_strip_dropWs (s.data ++ nl3).length _ true le_rfl, hsuf]
  · show String.mk (stripWs (subScan true ("```\n" ++ s ++ "\n```").data))
      = String.mk (stripWs (subScan true s.data))
    rw [show ("```\n" ++ s ++ "\n```").data = prePlainChars ++ (s.data ++ nl3) from by
      show ("```\n").data ++ s.data ++ ("\n```").data = prePlainChars ++ (s.data ++ nl3)
      rw [List.append_assoc]
      rfl]
    rw [subScan_prePlain, subScan_strip_dropWs (s.data ++ nl3).length _ true le_rfl, hsuf]
  · intro hfree
    show String.mk (stripWs (subScan true s.data)) = String.mk (stripWs s.data)
    rw [subScan_no_fence s.data true (no_fence_of_strContains_false hfree)]

/-- C7 witness: the round-trip theorem applied at a concrete fence-free
response text. -/
theorem claim_C7_witness :
    clean_json_response "```json\nMonday: oatmeal\n```" = "Monday: oatmeal" ∧
    clean_json_response "```\nMonday: oatmeal\n```" = "Monday: oatmeal" ∧
    clean_json_response "Monday: oatmeal" = "Monday: oatmeal" := by
  have h := claim_C7_clean_json_response "Monday: oatmeal"
  have h3 : clean_json_response "Monday: oatmeal" = "Monday: oatmeal" := by
    rw [h.2.2 (by decide)]
    decide
  refine ⟨?_, ?_, h3⟩
  · rw [show ("```json\nMonday: oatmeal\n```" : String)
        = "```json\n" ++ "Monday: oatmeal" ++ "\n```" from rfl, h.1, h3]
  · rw [show ("```\nMonday: oatmeal\n```" : String)
        = "```\n" ++ "Monday: oatmeal" ++ "\n```" from rfl, h.2.1, h3]

end DietPlanner
